import Mathlib

/-!
Shallow embedding of the RT-11 directory utility (`src/rt11dir.cpp`).

Machine integers are modelled as `Nat`; wherever the source truncates to a
16-bit word (a `uint16_t` store or cast) the model applies `% 65536`
explicitly.  The disk image is modelled at 16-bit word granularity: the C++
code always recombines the two bytes of a word with `lo | (hi << 8)`, a
bijection on byte pairs, so a word-addressed image function is a faithful
view of the byte-addressed one.
-/

namespace Rt11

/-! ## Status word bits (source lines 22-27) -/

def E_TENT : Nat := 0x0100
def E_MPTY : Nat := 0x0200
def E_PERM : Nat := 0x0400
def E_EOS  : Nat := 0x0800
def E_READ : Nat := 0x4000
def E_PRE  : Nat := 0x8000

/-! ## RAD50 codec (source lines 29-126) -/

/-- The 40-symbol RAD50 alphabet, `RAD50_TABLE` in the source. -/
def RAD50_TABLE : List Char :=
  [' ', 'A', 'B', 'C', 'D', 'E', 'F', 'G', 'H', 'I',
   'J', 'K', 'L', 'M', 'N', 'O', 'P', 'Q', 'R', 'S',
   'T', 'U', 'V', 'W', 'X', 'Y', 'Z',
   '$', '.', '%', '0', '1', '2', '3', '4', '5', '6', '7', '8', '9']

/-- Linear scan of `rad50Index`: first matching table position, 0 if absent. -/
def rad50IndexAux (c : Char) : List Char → Nat → Nat
  | [], _ => 0
  | x :: xs, i => if x = c then i else rad50IndexAux c xs (i + 1)

/-- `rad50Index` (source lines 86-92): uppercase the character, then scan. -/
def rad50Index (c : Char) : Nat :=
  rad50IndexAux c.toUpper RAD50_TABLE 0

/-- `encodeRad50` (source lines 94-102): pack up to three characters,
padding with spaces, into `i1*1600 + i2*40 + i3`. -/
def encodeRad50 (s : List Char) : Nat :=
  let c1 := s.getD 0 ' '
  let c2 := s.getD 1 ' '
  let c3 := s.getD 2 ' '
  rad50Index c1 * 1600 + rad50Index c2 * 40 + rad50Index c3

/-- The three table indices `decodeRad50` computes for a word
(source lines 105-108): `w / 1600`, `(w mod 1600) / 40`, `w mod 40`.
The source indexes the 40-entry `RAD50_TABLE` with these without any
bounds check. -/
def rad50Indices (w : Nat) : Nat × Nat × Nat :=
  (w / 1600, w % 1600 / 40, w % 40)

/-- `decodeRad50` (source lines 104-115).  Characters equal to space are
dropped from the result.  The C++ table access is unchecked; the model
returns `' '` for an out-of-range index (in C++ that access is out of
bounds, see claim C10). -/
def decodeRad50 (w : Nat) : List Char :=
  let i := rad50Indices w
  let c1 := RAD50_TABLE.getD i.1 ' '
  let c2 := RAD50_TABLE.getD i.2.1 ' '
  let c3 := RAD50_TABLE.getD i.2.2 ' '
  (if c1 ≠ ' ' then [c1] else []) ++
  (if c2 ≠ ' ' then [c2] else []) ++
  (if c3 ≠ ' ' then [c3] else [])

/-- `decodeFileName` (source lines 117-126). -/
def decodeFileName (name1 name2 ext : Nat) : List Char :=
  let base := (decodeRad50 name1 ++ decodeRad50 name2).take 6
  let extension := (decodeRad50 ext).take 3
  if extension = [] then base else base ++ '.' :: extension

/-- Split a name at the first dot, as `encodeFileName` does
(source lines 133-141). -/
def splitAtDot (s : List Char) : List Char × List Char :=
  match s.findIdx? (· = '.') with
  | none => (s, [])
  | some p => (s.take p, s.drop (p + 1))

/-- `encodeFileName` (source lines 128-154): truncate base/extension to 6/3
characters, pad with spaces, encode as three RAD50 words. -/
def encodeFileName (rtname : List Char) : Nat × Nat × Nat :=
  let be := splitAtDot rtname
  let base := (be.1.take 6) ++ List.replicate (6 - be.1.length) ' '
  let extension := (be.2.take 3) ++ List.replicate (3 - be.2.length) ' '
  (encodeRad50 (base.take 3), encodeRad50 ((base.drop 3).take 3),
   encodeRad50 extension)

/-! ## Date codec (source lines 247-270 and 357-375) -/

/-- Field extraction used by `formatRt11Date` (source lines 250-253). -/
def dateAge (w : Nat) : Nat := w >>> 14 &&& 0x3

/-- Month field of a packed date word (source line 251). -/
def dateMonth (w : Nat) : Nat := w >>> 10 &&& 0xF

/-- Day field of a packed date word (source line 252). -/
def dateDay (w : Nat) : Nat := w >>> 5 &&& 0x1F

/-- Year reconstructed by `formatRt11Date` (source line 255):
`1972 + yearLow + 32 * age`. -/
def dateYear (w : Nat) : Nat := 1972 + (w &&& 0x1F) + 32 * dateAge w

/-- The (year, month, day) triple `formatRt11Date` decodes and displays. -/
def decodeRt11DateFields (w : Nat) : Nat × Nat × Nat :=
  (dateYear w, dateMonth w, dateDay w)

/-- `encodeRt11Date` (source lines 357-375).  Faithful to the source,
including the defect on line 372: the day field is combined with the
logical AND `day && 0x1F` (not bitwise `&`), which evaluates to 1 for every
non-zero day. -/
def encodeRt11Date (year month day : Nat) : Nat :=
  if year < 1972 ∨ year > 2099 then 0
  else if month < 1 ∨ month > 12 ∨ day < 1 ∨ day > 31 then 0
  else
    let yearOffset := year - 1972
    let age0 := yearOffset / 32
    let age := if age0 > 3 then 3 else age0
    let base := 1972 + age * 32
    let yearLow := year - base
    ((age &&& 0x3) <<< 14) ||| ((month &&& 0xF) <<< 10) |||
      ((if day ≠ 0 then 1 else 0) <<< 5) ||| (yearLow &&& 0x1F)

end Rt11

namespace Rt11

/-! ## Disk model and directory reading (source lines 380-394 and 446-576) -/

/-- A disk image, addressed by 16-bit word index
(word `i` lives at byte offset `2*i`, i.e. word `i % 256` of block `i / 256`). -/
def Disk : Type := Nat → Nat

/-- Reading one 16-bit word: the byte pair recombination
`lo | (hi << 8)` always yields a value below 2^16. -/
def wordAt (d : Disk) (i : Nat) : Nat := d i % 65536

/-- The 512 words of the two consecutive blocks of a directory segment
located at block `b` (source lines 468-475 and analogues). -/
def segWordsAt (d : Disk) (b : Nat) : Nat → Nat :=
  fun j => wordAt d (b * 256 + j)

/-- `getFirstDirectoryBlock` (source lines 380-394): word 234 of block 1;
0 means the default, block 6. -/
def getFirstDirectoryBlock (d : Disk) : Nat :=
  let v := wordAt d (256 + 234)
  if v = 0 then 6 else v

/-- `Rt11Entry` (source lines 39-53). `startBlock` is the truncated
`uint16_t` store of source line 559. -/
structure Rt11Entry where
  name : List Char := []
  startBlock : Nat := 0
  lengthBlocks : Nat := 0
  status : Nat := 0
  dateWord : Nat := 0
  tentative : Bool := false
  empty : Bool := false
  permanent : Bool := false
  eos : Bool := false
  segNumber : Nat := 0
  wordIndex : Nat := 0
deriving DecidableEq

/-- The entry built at word index `idx` of a segment
(source lines 543-564); `offset` is the global cumulative offset. -/
def mkEntry (w : Nat → Nat) (segNum dsb idx offset : Nat) : Rt11Entry :=
  let st := w idx
  { segNumber := segNum
    wordIndex := idx
    status := st
    lengthBlocks := w (idx + 4)
    dateWord := w (idx + 6)
    name := decodeFileName (w (idx + 1)) (w (idx + 2)) (w (idx + 3))
    startBlock := (dsb + offset) % 65536
    tentative := st &&& E_TENT ≠ 0
    empty := st &&& E_MPTY ≠ 0
    permanent := st &&& E_PERM ≠ 0
    eos := st &&& E_EOS ≠ 0 }

/-- The per-segment entry loop of `readDirectory` (source lines 527-571):
decode entries from word index `idx` until an end-of-segment mark, a zero
status word, or the 512-word boundary; also returns the advanced global
cumulative offset.  `fuel` only bounds the recursion; 512 is always
enough since `ew ≥ 7`. -/
def parseSegEntries (w : Nat → Nat) (ew segNum dsb : Nat) :
    Nat → Nat → Nat → List Rt11Entry × Nat
  | _, offset, 0 => ([], offset)
  | idx, offset, fuel + 1 =>
    if idx + ew ≤ 512 then
      let st := w idx
      if st &&& E_EOS ≠ 0 then ([], offset)
      else if st = 0 then ([], offset)
      else
        let e := mkEntry w segNum dsb idx offset
        let rest := parseSegEntries w ew segNum dsb (idx + ew) (offset + w (idx + 4)) fuel
        (e :: rest.1, rest.2)
    else ([], offset)

/-- The segment-chain walk of `readDirectory` (source lines 491-575).
Returns the accumulated entries, whether a chain-integrity warning was
printed, and whether the walk came to rest within the given fuel (the
source's `while` loop has no fuel; the termination theorem for claim C4
shows `totalSegments + 1` always suffices). -/
def dirWalk (d : Disk) (totalBlocks fdb tseg dsb : Nat) :
    List Bool → Nat → Nat → List Rt11Entry → Nat →
    List Rt11Entry × Bool × Bool
  | _, _, _, acc, 0 => (acc, false, false)
  | visited, cur, offset, acc, fuel + 1 =>
    if cur = 0 then (acc, false, true)
    else if cur < 1 ∨ tseg < cur then (acc, true, true)
    else if visited.getD cur false then (acc, true, true)
    else
      let visited' := visited.set cur true
      let segBlock := fdb + (cur - 1) * 2
      if totalBlocks ≤ segBlock + 1 then (acc, true, true)
      else
        let w := segWordsAt d segBlock
        let ew := 7 + w 3 / 2
        let seg := parseSegEntries w ew cur dsb 5 offset 512
        dirWalk d totalBlocks fdb tseg dsb visited' (w 1) seg.2 (acc ++ seg.1) fuel

/-- The clamped total-segments count (source line 479). -/
def clampTotalSegments (ts : Nat) : Nat :=
  if ts = 0 ∨ ts > 31 then 1 else ts

/-- `readDirectory` (source lines 456-576).  `none` models the
"First directory block out of range" exception; otherwise the entry list
together with the chain-integrity warning flag is returned. -/
def readDirectory (d : Disk) (totalBlocks : Nat) :
    Option (List Rt11Entry × Bool) :=
  let fdb := getFirstDirectoryBlock d
  if totalBlocks ≤ fdb then none
  else
    let firstW := segWordsAt d fdb
    let tseg := clampTotalSegments (firstW 0)
    let dsb := firstW 4
    let r := dirWalk d totalBlocks fdb tseg dsb
      (List.replicate (tseg + 1) false) 1 0 [] (tseg + 1)
    some (r.1, r.2.1)

/-- The data start block `readDirectory` takes from the first segment's
header and applies to every segment (source line 482). -/
def dataStartBlockOf (d : Disk) : Nat :=
  segWordsAt d (getFirstDirectoryBlock d) 4

/-- Sum of the `lengthBlocks` fields of a list of entries. -/
def sumLens (l : List Rt11Entry) : Nat :=
  (l.map Rt11Entry.lengthBlocks).sum

end Rt11

namespace Rt11

/-! ## Block writes -/

/-- `writeBlock` at word granularity: replace the 256 words of block `b`. -/
def writeBlockW (d : Disk) (b : Nat) (c : Nat → Nat) : Disk :=
  fun i => if b * 256 ≤ i ∧ i < b * 256 + 256 then c (i - b * 256) % 65536 else d i

/-- Writing a 512-word segment image to its two consecutive blocks. -/
def writeSegWords (d : Disk) (b : Nat) (w : Nat → Nat) : Disk :=
  writeBlockW (writeBlockW d b (fun j => w j)) (b + 1) (fun j => w (256 + j))

/-! ## Allocation (`copySingleToRt11`, source lines 1070-1082) -/

/-- The allocator's predicate (source line 1076):
`e.empty && !e.permanent && !e.tentative && e.lengthBlocks >= blocksNeeded`. -/
def isFreeFit (n : Nat) (e : Rt11Entry) : Bool :=
  e.empty && !e.permanent && !e.tentative && decide (n ≤ e.lengthBlocks)

/-- First-fit search over the decoded entry list (source lines 1073-1081). -/
def findEmptyEntry (entries : List Rt11Entry) (n : Nat) : Option Rt11Entry :=
  entries.find? (isFreeFit n)

/-- Blocks needed for a file of `data.length` 16-bit words
(source lines 1070-1071, with the byte count `2 * data.length`). -/
def blocksNeededFor (data : List Nat) : Nat :=
  let bn := (data.length + 255) / 256
  if bn = 0 then 1 else bn

/-! ## Directory update of `copySingleToRt11` (source lines 1131-1211) -/

/-- The EOS scan (source lines 1135-1149): first word index at or after 5
holding an EOS mark or a zero status; past-the-end if none within bounds.
The source's `uint16_t` cast on the advancing index can never truncate
here, since the index is at most 512 at that point. -/
def scanEosIdx (w : Nat → Nat) (ew : Nat) : Nat → Nat → Nat
  | scanIdx, 0 => scanIdx
  | scanIdx, fuel + 1 =>
    if scanIdx + ew ≤ 512 then
      let st := w scanIdx
      if st &&& E_EOS ≠ 0 then scanIdx
      else if st = 0 then scanIdx
      else scanEosIdx w ew (scanIdx + ew) fuel
    else scanIdx

/-- Net effect of the backward shift loop (source lines 1187-1192):
`words[i + ew] = words[i]` for `i` from `eosIdx - 1` down to `insertIdx`.
Because the loop runs downward, every read happens before any write to
that position, so word `j` in `[insertIdx + ew, eosIdx + ew)` receives the
original word `j - ew` and every other word is untouched. -/
def shiftUp (w : Nat → Nat) (insertIdx eosIdx ew : Nat) : Nat → Nat :=
  fun j => if insertIdx + ew ≤ j ∧ j < eosIdx + ew then w (j - ew) else w j

/-- Store one 7-word directory entry at word index `idx`
(source lines 1175-1181 and 1194-1201). -/
def writeEntryAt (w : Nat → Nat) (idx st n1 n2 ext len job dateW : Nat) :
    Nat → Nat :=
  fun j =>
    if j = idx then st
    else if j = idx + 1 then n1
    else if j = idx + 2 then n2
    else if j = idx + 3 then ext
    else if j = idx + 4 then len
    else if j = idx + 5 then job
    else if j = idx + 6 then dateW
    else w j

/-- The in-memory directory update of `copySingleToRt11`
(source lines 1166-1211): overwrite the chosen entry with the new
permanent entry; when blocks remain, shift, insert the new empty entry
right after it, and place a cleared EOS entry after that.  The two
`uint16_t` casts of the source are kept as `% 65536`. -/
def dirUpdateWords (w : Nat → Nat)
    (ew idx blocksNeeded remaining eosIdx n1 n2 ext dateW : Nat) :
    Nat → Nat :=
  let w1 := writeEntryAt w idx E_PERM n1 n2 ext blocksNeeded 0 dateW
  if remaining > 0 then
    let insertIdx := (idx + ew) % 65536
    let w2 := if insertIdx < eosIdx then shiftUp w1 insertIdx eosIdx ew else w1
    let w3 := writeEntryAt w2 insertIdx E_MPTY 0 0 0 remaining 0 0
    let newEosIdx := (insertIdx + ew) % 65536
    let w4 := fun j => if newEosIdx ≤ j ∧ j < newEosIdx + ew then 0 else w3 j
    fun j => if j = newEosIdx then E_EOS else w4 j
  else w1

/-! ## `splitDirectorySegment` (source lines 791-1024) -/

inductive SplitErr
  | invalidSegCount
  | linkLoop
  | notInChain
  | dirFull
  | emptySeg
  | fuelOut
deriving DecidableEq

/-- The chain-membership walk of `splitDirectorySegment`
(source lines 818-840): mark every segment reachable from segment 1;
a revisit is a corrupt-directory error, a zero or out-of-range link ends
the walk cleanly. -/
def splitChainWalk (d : Disk) (fdb tseg : Nat) :
    List Bool → Nat → Nat → Except SplitErr (List Bool)
  | _, _, 0 => .error .fuelOut
  | used, cur, fuel + 1 =>
    if cur = 0 ∨ cur < 1 ∨ tseg < cur then .ok used
    else if used.getD cur false then .error .linkLoop
    else
      let used' := used.set cur true
      let w := segWordsAt d (fdb + (cur - 1) * 2)
      splitChainWalk d fdb tseg used' (w 1) fuel

/-- First unused segment number in `1..totalSegments`
(source lines 849-855). -/
def findUnusedSeg (used : List Bool) (tseg : Nat) : Option Nat :=
  (List.range' 1 tseg).find? (fun s => !used.getD s false)

/-- Entry-index collection of `splitDirectorySegment` (source
lines 877-894); the `uint16_t` cast on the advance cannot truncate
(the index stays at most 512). -/
def collectEntryIdx (w : Nat → Nat) (ew : Nat) : Nat → Nat → List Nat
  | _, 0 => []
  | idx, fuel + 1 =>
    if idx + ew ≤ 512 then
      let st := w idx
      if st &&& E_EOS ≠ 0 then []
      else if st = 0 then []
      else idx :: collectEntryIdx w ew (idx + ew) fuel
    else []

/-- Positions (into `entryIdx`) of permanent or tentative entries
(source lines 902-909). -/
def movablePositions (w : Nat → Nat) (entryIdx : List Nat) : List Nat :=
  (List.range entryIdx.length).filter
    (fun i => w (entryIdx.getD i 0) &&& (E_PERM ||| E_TENT) != 0)

/-- The split-point choice (source lines 911-923): the middle element of
the permanent/tentative positions, or the raw midpoint when there are
none; a choice at or past the last entry is replaced by the raw
midpoint. -/
def chooseSplitPos (w : Nat → Nat) (entryIdx : List Nat) : Nat :=
  let mov := movablePositions w entryIdx
  let midPos := if mov = [] then entryIdx.length / 2 else mov.getD (mov.length / 2) 0
  if midPos + 1 ≥ entryIdx.length then entryIdx.length / 2 else midPos

/-- The old segment's words after the split (source lines 930-934): EOS
over the split-point entry's status word, link to the new segment.  The
link store comes second in the source, so it wins on overlap. -/
def splitOldWords (w : Nat → Nat) (middleIdx newSegNum : Nat) : Nat → Nat :=
  fun j => if j = 1 then newSegNum else if j = middleIdx then E_EOS else w j

/-- The new segment's header over an otherwise zeroed 512-word buffer
(source lines 951-959). -/
def splitNewBase (w : Nat → Nat) (originalLink : Nat) : Nat → Nat :=
  fun j =>
    if j = 0 then w 0
    else if j = 1 then originalLink
    else if j = 2 then w 2
    else if j = 3 then w 3
    else if j = 4 then w 4
    else 0

/-- Copy `n` consecutive words from `src` at `srcIdx` over `dst` at
`dstIdx` (the inner loop of source lines 972-974; source and destination
are distinct buffers). -/
def copyWordsRange (src dst : Nat → Nat) (srcIdx dstIdx n : Nat) :
    Nat → Nat :=
  fun j => if dstIdx ≤ j ∧ j < dstIdx + n then src (srcIdx + (j - dstIdx)) else dst j

/-- The entry-moving loop of `splitDirectorySegment` (source
lines 964-976): copy each listed entry to the next free slot of the new
segment, stopping if a copy would cross the 512-word boundary.  Returns
the number of entries moved and the new segment's words. -/
def buildNewSegEntries (w : Nat → Nat) (ew : Nat) :
    List Nat → Nat → (Nat → Nat) → Nat × (Nat → Nat)
  | [], moved, acc => (moved, acc)
  | srcIdx :: rest, moved, acc =>
    let dest := 5 + moved * ew
    if dest + ew > 512 then (moved, acc)
    else buildNewSegEntries w ew rest (moved + 1) (copyWordsRange w acc srcIdx dest ew)

/-- `splitDirectorySegment` (source lines 791-1024).  On success, returns
the updated disk and the ordered list of block numbers written. -/
def splitDirectorySegment (d : Disk) (segToSplit : Nat) :
    Except SplitErr (Disk × List Nat) :=
  let fdb := getFirstDirectoryBlock d
  let seg1W := segWordsAt d fdb
  let tseg := seg1W 0
  if tseg = 0 ∨ tseg > 31 then .error .invalidSegCount
  else
    match splitChainWalk d fdb tseg (List.replicate (tseg + 1) false) 1 (tseg + 1) with
    | .error e => .error e
    | .ok used =>
      if segToSplit < 1 ∨ tseg < segToSplit ∨ used.getD segToSplit false = false then
        .error .notInChain
      else
        match findUnusedSeg used tseg with
        | none => .error .dirFull
        | some newSegNum =>
          let segBlock := fdb + (segToSplit - 1) * 2
          let w := segWordsAt d segBlock
          let ew := 7 + w 3 / 2
          let entryIdx := collectEntryIdx w ew 5 512
          if entryIdx = [] then .error .emptySeg
          else
            let midPos := chooseSplitPos w entryIdx
            let middleIdx := entryIdx.getD midPos 0
            let originalLink := w 1
            let d1 := writeSegWords d segBlock (splitOldWords w middleIdx newSegNum)
            let bn := buildNewSegEntries w ew (entryIdx.drop midPos) 0
              (splitNewBase w originalLink)
            let newEosIdx := 5 + bn.1 * ew
            let newW := fun j => if j = newEosIdx ∧ newEosIdx < 512 then E_EOS else bn.2 j
            let newSegBlock := fdb + (newSegNum - 1) * 2
            let d2 := writeSegWords d1 newSegBlock newW
            let oldHighest := seg1W 2
            let newHighest := max oldHighest newSegNum
            if newHighest ≠ oldHighest then
              let d3 := writeSegWords d2 fdb (fun j => if j = 2 then newHighest else seg1W j)
              .ok (d3, [segBlock, segBlock + 1, newSegBlock, newSegBlock + 1, fdb, fdb + 1])
            else
              .ok (d2, [segBlock, segBlock + 1, newSegBlock, newSegBlock + 1])

/-! ## `copySingleToRt11` (source lines 1029-1229) -/

inductive CopyErr
  | readDirFail
  | noSpace
  | invalidRange
  | internalLen
  | splitFailed (e : SplitErr)
  | fuelOut
deriving DecidableEq

/-- Outcome of one copy-to operation: final disk, ordered block-number
write trace, error (`none` on success), and whether the operation was a
`noreplace` skip. -/
structure CopyResult where
  disk : Disk
  writes : List Nat
  err : Option CopyErr
  skipped : Bool

/-- `iequals` (source lines 639-647). -/
def iequalsChars (a b : List Char) : Bool :=
  a.length == b.length && (List.zip a b).all (fun p => p.1.toUpper == p.2.toUpper)

/-- Words of the `i`-th data block written for the file
(source lines 1095-1104: file contents, zero-padded). -/
def dataBlockContent (data : List Nat) (i : Nat) : Nat → Nat :=
  fun j => data.getD (i * 256 + j) 0

/-- The data-writing loop (source lines 1094-1104), as its effect on the
disk; block `start + i` receives the file's `i`-th block, zero-padded. -/
def writeDataBlocks (d : Disk) (start : Nat) (data : List Nat) : Nat → Disk
  | 0 => d
  | n + 1 => writeBlockW (writeDataBlocks d start data n) (start + n) (dataBlockContent data n)

/-- `copySingleToRt11` (source lines 1029-1229), with the host-side file
lookup abstracted into the `data`/`rtname` arguments and the system clock
into `sysDateWord`.  The recursion after a segment split (source
line 1160) is fuel-bounded; exhausted fuel models the unbounded C++
recursion not returning. -/
def copySingleToRt11 (totalBlocks : Nat) (data : List Nat) (rtname : List Char)
    (noReplace : Bool) (optionalDateWord sysDateWord : Nat) :
    Disk → Nat → CopyResult
  | d, 0 => ⟨d, [], some .fuelOut, false⟩
  | d, fuel + 1 =>
    match readDirectory d totalBlocks with
    | none => ⟨d, [], some .readDirFail, false⟩
    | some er =>
      let entries := er.1
      if noReplace && entries.any (fun e => e.permanent && iequalsChars e.name rtname) then
        ⟨d, [], none, true⟩
      else
        let bn := blocksNeededFor data
        match findEmptyEntry entries bn with
        | none => ⟨d, [], some .noSpace, false⟩
        | some emptyEntry =>
          let start := emptyEntry.startBlock
          if start = 0 ∨ totalBlocks ≤ start + bn - 1 then
            ⟨d, [], some .invalidRange, false⟩
          else
            let d1 := writeDataBlocks d start data bn
            let dataTrace := (List.range bn).map (start + ·)
            let fdb := getFirstDirectoryBlock d1
            let segBlock := fdb + (emptyEntry.segNumber - 1) * 2
            let w := segWordsAt d1 segBlock
            let ew := 7 + w 3 / 2
            let idx := emptyEntry.wordIndex
            let originalLen := w (idx + 4)
            if originalLen < bn then ⟨d1, dataTrace, some .internalLen, false⟩
            else
              let remaining := originalLen - bn
              let eosIdx := scanEosIdx w ew 5 512
              if remaining > 0 ∧ 512 < ((idx + ew) % 65536 + ew + ew) % 65536 then
                match splitDirectorySegment d1 emptyEntry.segNumber with
                | .error e => ⟨d1, dataTrace, some (.splitFailed e), false⟩
                | .ok ds =>
                  let r := copySingleToRt11 totalBlocks data rtname noReplace
                    optionalDateWord sysDateWord ds.1 fuel
                  ⟨r.disk, dataTrace ++ ds.2 ++ r.writes, r.err, r.skipped⟩
              else
                let ne := encodeFileName rtname
                let dateW := if optionalDateWord ≠ 0 then optionalDateWord else sysDateWord
                let w2 := dirUpdateWords w ew idx bn remaining eosIdx ne.1 ne.2.1 ne.2.2 dateW
                ⟨writeSegWords d1 segBlock w2, dataTrace ++ [segBlock, segBlock + 1], none, false⟩

end Rt11

namespace Rt11

/-! ## Concrete segment images used by the split-point theorems -/

/-- A segment image with ten entries (`ew = 7`), of which only the last
(position 9) is permanent; the others are empty areas. -/
def exW8 : Nat → Nat := fun j =>
  if j = 0 then 1 else if j = 4 then 100
  else if 5 ≤ j ∧ j < 75 ∧ (j - 5) % 7 = 0 then (if j = 68 then 1024 else 512)
  else if 5 ≤ j ∧ j < 75 ∧ (j - 5) % 7 = 4 then 1
  else if j = 75 then 2048
  else 0

/-- A segment image with three entries (`ew = 7`): a permanent entry
followed by two empty areas. -/
def exW8b : Nat → Nat := fun j =>
  if j = 0 then 1 else if j = 4 then 100
  else if j = 5 then 1024 else if j = 9 then 2
  else if j = 12 then 512 else if j = 16 then 4
  else if j = 19 then 512 else if j = 23 then 6
  else if j = 26 then 2048
  else 0

/-! ## Claims C7, C10, C9, C8 -/

/-- Claim C7: the date round trip the spec requires fails in the code.
`encodeRt11Date` combines the day with the logical AND `day && 0x1F`
(source line 372), so every valid day is stored as day 1: encoding
15-Jan-1999 decodes to day 1, not day 15.  The year/month round trip for
the years 1972, 1999, 2003, 2071, 2099 does hold (shown here at day 1,
the only day the code stores), and year 2100 and day 0 are rejected with
result 0 exactly as claimed. -/
theorem C7_date_code_bug :
    dateDay (encodeRt11Date 1999 1 15) = 1
    ∧ decodeRt11DateFields (encodeRt11Date 1999 1 15) = (1999, 1, 1)
    ∧ decodeRt11DateFields (encodeRt11Date 1999 1 15) ≠ (1999, 1, 15)
    ∧ decodeRt11DateFields (encodeRt11Date 1972 3 1) = (1972, 3, 1)
    ∧ decodeRt11DateFields (encodeRt11Date 1999 12 1) = (1999, 12, 1)
    ∧ decodeRt11DateFields (encodeRt11Date 2003 6 1) = (2003, 6, 1)
    ∧ decodeRt11DateFields (encodeRt11Date 2071 7 1) = (2071, 7, 1)
    ∧ decodeRt11DateFields (encodeRt11Date 2099 12 31) = (2099, 12, 1)
    ∧ encodeRt11Date 2100 6 15 = 0
    ∧ encodeRt11Date 1999 6 0 = 0 := by
  decide

/-- Claim C10: the first RAD50 table index is NOT always below 40.  For
the 16-bit word 64000 (and any larger word), `decodeRad50` computes
`w / 1600 = 40`, one past the end of the 40-entry `RAD50_TABLE` — an
out-of-bounds read in the C++ source, reachable because `readDirectory`
feeds arbitrary on-disk name words to `decodeFileName`.  The second and
third indices are always below 40, and the first is below 40 exactly for
words under 64000 (which covers every word `encodeRad50` can produce). -/
theorem C10_rad50_index_out_of_bounds :
    (rad50Indices 64000).1 = 40
    ∧ ¬ (rad50Indices 64000).1 < RAD50_TABLE.length
    ∧ 64000 < 65536
    ∧ RAD50_TABLE.length = 40
    ∧ (∀ w : Nat, (rad50Indices w).2.1 < 40 ∧ (rad50Indices w).2.2 < 40)
    ∧ (∀ w : Nat, ((rad50Indices w).1 < 40 ↔ w < 64000)) := by
  refine ⟨by decide, by decide, by decide, by decide, ?_, ?_⟩
  · intro w
    constructor <;> simp only [rad50Indices] <;> omega
  · intro w
    simp only [rad50Indices]
    omega

/-- Claim C9, counterexample: the 3-character string made of two spaces
and an `A` is drawn from the 40-symbol alphabet, but decoding its
encoding yields `"A"` — `decodeRad50` drops space characters (source
lines 111-113), so the round trip fails for any string containing a
space. -/
theorem C9_space_roundtrip_counterexample :
    ([' ', ' ', 'A'].all (fun c => RAD50_TABLE.contains c)) = true
    ∧ decodeRad50 (encodeRad50 [' ', ' ', 'A']) = ['A']
    ∧ decodeRad50 (encodeRad50 [' ', ' ', 'A']) ≠ [' ', ' ', 'A'] := by
  decide

theorem rad50Index_getD : ∀ i, i < 40 → rad50Index (RAD50_TABLE.getD i ' ') = i := by
  decide

theorem mem_table_getD {c : Char} (h : c ∈ RAD50_TABLE) :
    ∃ i, i < 40 ∧ RAD50_TABLE.getD i ' ' = c := by
  obtain ⟨i, hi, hg⟩ := List.mem_iff_getElem.mp h
  exact ⟨i, by simpa [RAD50_TABLE] using hi, by rw [List.getD_eq_getElem _ _ hi]; exact hg⟩

/-- Claim C9, amended: for every 3-character string drawn from the
40-symbol alphabet and containing no space, `decodeRad50 ∘ encodeRad50`
is the identity.  (Strings containing the space symbol lose their spaces
on decoding, as the counterexample shows.) -/
theorem C9_rad50_roundtrip_amended (c1 c2 c3 : Char)
    (h1 : c1 ∈ RAD50_TABLE) (h2 : c2 ∈ RAD50_TABLE) (h3 : c3 ∈ RAD50_TABLE)
    (n1 : c1 ≠ ' ') (n2 : c2 ≠ ' ') (n3 : c3 ≠ ' ') :
    decodeRad50 (encodeRad50 [c1, c2, c3]) = [c1, c2, c3] := by
  obtain ⟨i1, hi1, hg1⟩ := mem_table_getD h1
  obtain ⟨i2, hi2, hg2⟩ := mem_table_getD h2
  obtain ⟨i3, hi3, hg3⟩ := mem_table_getD h3
  have e1 : rad50Index c1 = i1 := hg1 ▸ rad50Index_getD i1 hi1
  have e2 : rad50Index c2 = i2 := hg2 ▸ rad50Index_getD i2 hi2
  have e3 : rad50Index c3 = i3 := hg3 ▸ rad50Index_getD i3 hi3
  have henc : encodeRad50 [c1, c2, c3] = i1 * 1600 + i2 * 40 + i3 := by
    simp [encodeRad50, e1, e2, e3]
  have d1 : (i1 * 1600 + i2 * 40 + i3) / 1600 = i1 := by omega
  have d2 : (i1 * 1600 + i2 * 40 + i3) % 1600 / 40 = i2 := by omega
  have d3 : (i1 * 1600 + i2 * 40 + i3) % 40 = i3 := by omega
  rw [henc]
  simp only [decodeRad50, rad50Indices]
  rw [d1, d2, d3, hg1, hg2, hg3]
  simp [n1, n2, n3]

/-- Witness for the amended claim C9 at the concrete string `"ABC"`. -/
theorem C9_rad50_roundtrip_witness :
    decodeRad50 (encodeRad50 ['A', 'B', 'C']) = ['A', 'B', 'C'] :=
  C9_rad50_roundtrip_amended 'A' 'B' 'C' (by decide) (by decide) (by decide)
    (by decide) (by decide) (by decide)

/-- Claim C8, counterexample.  Two violations of the claim on concrete
segments.  In `exW8` the only permanent entry sits at position 9 of 10,
so the claimed rule ("nearest the middle of that subset", then "shift
left by one" when it is the last entry) would split at position 8; the
code instead resets the choice to the raw midpoint and splits at 5.  In
`exW8b` (a permanent entry followed by two empty ones) the code chooses
position 0, leaving the old segment with no non-sentinel entry at all —
contradicting "at least one non-sentinel entry remains on each side". -/
theorem C8_split_point_counterexample :
    collectEntryIdx exW8 7 5 512 = [5, 12, 19, 26, 33, 40, 47, 54, 61, 68]
    ∧ movablePositions exW8 (collectEntryIdx exW8 7 5 512) = [9]
    ∧ chooseSplitPos exW8 (collectEntryIdx exW8 7 5 512) = 5
    ∧ chooseSplitPos exW8 (collectEntryIdx exW8 7 5 512) ≠ 8
    ∧ movablePositions exW8b (collectEntryIdx exW8b 7 5 512) = [0]
    ∧ chooseSplitPos exW8b (collectEntryIdx exW8b 7 5 512) = 0
    ∧ ¬ 1 ≤ chooseSplitPos exW8b (collectEntryIdx exW8b 7 5 512) := by
  decide

/-- Claim C8, amended: the split point is the middle element (position
`⌊m/2⌋`) of the permanent/tentative positions, or the raw midpoint
`⌊n/2⌋` when there are none; a choice landing at or past the last entry
is replaced by the raw midpoint `⌊n/2⌋` (not shifted left by one).  The
chosen position is always below the entry count — so the new segment
always receives at least one entry — but it can be 0, in which case the
old segment keeps none. -/
theorem C8_split_point_amended (w : Nat → Nat) (entryIdx : List Nat)
    (h : entryIdx ≠ []) :
    chooseSplitPos w entryIdx < entryIdx.length
    ∧ (chooseSplitPos w entryIdx = entryIdx.length / 2
       ∨ w (entryIdx.getD (chooseSplitPos w entryIdx) 0) &&& (E_PERM ||| E_TENT) ≠ 0) := by
  have hn : 0 < entryIdx.length := List.length_pos.mpr h
  have hch : chooseSplitPos w entryIdx =
      if (if movablePositions w entryIdx = [] then entryIdx.length / 2
          else (movablePositions w entryIdx).getD
            ((movablePositions w entryIdx).length / 2) 0) + 1 ≥ entryIdx.length
      then entryIdx.length / 2
      else (if movablePositions w entryIdx = [] then entryIdx.length / 2
            else (movablePositions w entryIdx).getD
              ((movablePositions w entryIdx).length / 2) 0) := rfl
  rw [hch]
  by_cases hmov : movablePositions w entryIdx = []
  · rw [if_pos hmov, ite_self]
    exact ⟨by omega, Or.inl rfl⟩
  · rw [if_neg hmov]
    have hl : (movablePositions w entryIdx).length / 2 <
        (movablePositions w entryIdx).length := by
      have := List.length_pos.mpr hmov
      omega
    have hmm : (movablePositions w entryIdx).getD
        ((movablePositions w entryIdx).length / 2) 0 ∈ movablePositions w entryIdx := by
      rw [List.getD_eq_getElem _ _ hl]
      exact List.getElem_mem hl
    simp only [movablePositions] at hmm
    have hp := List.mem_filter.mp hmm
    have hpm := List.mem_range.mp hp.1
    by_cases hcl : (movablePositions w entryIdx).getD
        ((movablePositions w entryIdx).length / 2) 0 + 1 ≥ entryIdx.length
    · rw [if_pos hcl]
      exact ⟨by omega, Or.inl rfl⟩
    · rw [if_neg hcl]
      refine ⟨by omega, Or.inr ?_⟩
      have hp2 := hp.2
      simp only [movablePositions] at hcl ⊢
      simpa [bne_iff_ne] using hp2

/-- Witness for the amended claim C8 at the concrete segment `exW8b`. -/
theorem C8_split_point_witness :
    chooseSplitPos exW8b (collectEntryIdx exW8b 7 5 512) <
      (collectEntryIdx exW8b 7 5 512).length
    ∧ (chooseSplitPos exW8b (collectEntryIdx exW8b 7 5 512) =
        (collectEntryIdx exW8b 7 5 512).length / 2
       ∨ exW8b ((collectEntryIdx exW8b 7 5 512).getD
            (chooseSplitPos exW8b (collectEntryIdx exW8b 7 5 512)) 0) &&&
            (E_PERM ||| E_TENT) ≠ 0) :=
  C8_split_point_amended exW8b (collectEntryIdx exW8b 7 5 512) (by decide)

end Rt11

namespace Rt11

/-! ## Claim C4: termination and stop conditions of the directory walk -/

/-- Number of unvisited slots in a visited vector. -/
def falseCount (v : List Bool) : Nat := v.count false

theorem falseCount_set (v : List Bool) (cur : Nat) (hl : cur < v.length)
    (hf : v.getD cur false = false) :
    falseCount (v.set cur true) + 1 = falseCount v := by
  induction v generalizing cur with
  | nil => simp at hl
  | cons b bs ih =>
    cases cur with
    | zero =>
      simp only [List.getD, List.get?_eq_getElem?] at hf
      simp only [List.getElem?_cons_zero, Option.getD_some] at hf
      subst hf
      simp [falseCount, List.count_cons]
    | succ n =>
      have hl2 : n < bs.length := by simpa using hl
      have hf2 : bs.getD n false = false := by simpa [List.getD] using hf
      have := ih n hl2 hf2
      simp only [List.set, falseCount, List.count_cons] at this ⊢
      omega

theorem falseCount_pos (v : List Bool) (hlen : 0 < v.length)
    (h0 : v.getD 0 false = false) : 0 < falseCount v := by
  cases v with
  | nil => simp at hlen
  | cons b bs =>
    simp only [List.getD, List.get?_eq_getElem?, List.getElem?_cons_zero,
      Option.getD_some] at h0
    subst h0
    simp [falseCount, List.count_cons]

/-- The chain walk always comes to rest within `falseCount visited` steps:
every iteration either stops or marks a previously unvisited slot. -/
theorem dirWalk_fuel_sufficient (d : Disk) (totalBlocks fdb tseg dsb : Nat) :
    ∀ fuel visited cur offset acc,
      tseg + 1 ≤ visited.length →
      visited.getD 0 false = false →
      falseCount visited ≤ fuel →
      (dirWalk d totalBlocks fdb tseg dsb visited cur offset acc fuel).2.2 = true := by
  intro fuel
  induction fuel with
  | zero =>
    intro v cur off acc hlen h0 hfc
    have := falseCount_pos v (by omega) h0
    omega
  | succ f ih =>
    intro v cur off acc hlen h0 hfc
    simp only [dirWalk]
    by_cases hc0 : cur = 0
    · simp [hc0]
    · rw [if_neg hc0]
      by_cases hcr : cur < 1 ∨ tseg < cur
      · rw [if_pos hcr]
      · rw [if_neg hcr]
        by_cases hv : v.getD cur false
        · rw [if_pos hv]
        · rw [if_neg hv]
          by_cases hb : totalBlocks ≤ fdb + (cur - 1) * 2 + 1
          · rw [if_pos hb]
          · rw [if_neg hb]
            have hfv : v.getD cur false = false := by simpa using hv
            have hcl : cur < v.length := by omega
            apply ih
            · simpa using hlen
            · have hne : cur ≠ 0 := hc0
              simp only [List.getD, List.get?_eq_getElem?] at h0 ⊢
              rw [List.getElem?_set_ne hne]
              exact h0
            · have := falseCount_set v cur hcl hfv
              omega

/-- Any of the three stop conditions makes the walk return the entries
decoded so far together with a warning. -/
theorem dirWalk_stop (d : Disk) (totalBlocks fdb tseg dsb : Nat)
    (visited : List Bool) (cur offset : Nat) (acc : List Rt11Entry) (fuel : Nat)
    (h0 : cur ≠ 0)
    (h : cur < 1 ∨ tseg < cur ∨ visited.getD cur false = true ∨
         totalBlocks ≤ fdb + (cur - 1) * 2 + 1) :
    dirWalk d totalBlocks fdb tseg dsb visited cur offset acc (fuel + 1) =
      (acc, true, true) := by
  simp only [dirWalk]
  rw [if_neg h0]
  by_cases hcr : cur < 1 ∨ tseg < cur
  · rw [if_pos hcr]
  · rw [if_neg hcr]
    by_cases hv : visited.getD cur false
    · rw [if_pos hv]
    · rw [if_neg hv]
      have hb : totalBlocks ≤ fdb + (cur - 1) * 2 + 1 := by
        rcases h with h | h | h | h
        · exact absurd (Or.inl h) hcr
        · exact absurd (Or.inr h) hcr
        · exact absurd h (by simpa using hv)
        · exact h
      rw [if_pos hb]

/-- A one-segment disk whose next-segment link points back to segment 1
(a directory loop). -/
def exDiskLoop : Disk := fun i =>
  if i < 1536 then 0
  else if i < 2048 then
    let j := i - 1536
    if j = 0 then 2 else if j = 1 then 1 else if j = 4 then 100
    else if j = 5 then 1024 else if j = 9 then 3
    else if j = 12 then 2048
    else 0
  else 0

/-- Claim C4: `readDirectory` terminates on every image.  First part: the
walk `readDirectory` performs — fuelled with `totalSegments + 1` — always
comes to rest within its fuel (every iteration either stops or marks a
previously unvisited segment, and there are only `totalSegments` of
them), so the fuel is an artifact of the embedding, not a behaviour
change.  Second part: whenever the current segment number (nonzero, a
zero link is the clean end of chain) is outside `1..totalSegments`, is
already visited — in particular a next-link pointing back to an already
visited segment — or its two-block location would reach past the
volume's block count, the walk stops with a warning, returning exactly
the entries decoded so far. -/
theorem C4_readDirectory_terminates :
    (∀ (d : Disk) (totalBlocks : Nat),
      (dirWalk d totalBlocks (getFirstDirectoryBlock d)
        (clampTotalSegments (segWordsAt d (getFirstDirectoryBlock d) 0))
        (segWordsAt d (getFirstDirectoryBlock d) 4)
        (List.replicate
          (clampTotalSegments (segWordsAt d (getFirstDirectoryBlock d) 0) + 1) false)
        1 0 []
        (clampTotalSegments (segWordsAt d (getFirstDirectoryBlock d) 0) + 1)).2.2
        = true)
    ∧ (∀ (d : Disk) (totalBlocks fdb tseg dsb : Nat) (visited : List Bool)
        (cur offset : Nat) (acc : List Rt11Entry) (fuel : Nat),
        cur ≠ 0 →
        (cur < 1 ∨ tseg < cur ∨ visited.getD cur false = true ∨
         totalBlocks ≤ fdb + (cur - 1) * 2 + 1) →
        dirWalk d totalBlocks fdb tseg dsb visited cur offset acc (fuel + 1) =
          (acc, true, true)) := by
  constructor
  · intro d tb
    apply dirWalk_fuel_sufficient
    · simp
    · simp [List.replicate_succ, List.getD]
    · simp [falseCount]
  · intro d tb fdb tseg dsb visited cur offset acc fuel h0 h
    exact dirWalk_stop d tb fdb tseg dsb visited cur offset acc fuel h0 h

/-- Witness for claim C4: on the concrete looping disk `exDiskLoop`, the
full walk of `readDirectory` comes to rest, and from the state where
segment 1 is already visited the walk stops at once with a warning. -/
theorem C4_readDirectory_terminates_witness :
    (dirWalk exDiskLoop 20 (getFirstDirectoryBlock exDiskLoop)
      (clampTotalSegments (segWordsAt exDiskLoop (getFirstDirectoryBlock exDiskLoop) 0))
      (segWordsAt exDiskLoop (getFirstDirectoryBlock exDiskLoop) 4)
      (List.replicate
        (clampTotalSegments (segWordsAt exDiskLoop (getFirstDirectoryBlock exDiskLoop) 0) + 1)
        false)
      1 0 []
      (clampTotalSegments (segWordsAt exDiskLoop (getFirstDirectoryBlock exDiskLoop) 0) + 1)).2.2
      = true
    ∧ dirWalk exDiskLoop 20 6 2 100 [false, true, false] 1 3 [] 5 = ([], true, true) :=
  ⟨C4_readDirectory_terminates.1 exDiskLoop 20,
   C4_readDirectory_terminates.2 exDiskLoop 20 6 2 100 [false, true, false] 1 3 [] 4
     (by decide) (Or.inr (Or.inr (Or.inl (by decide))))⟩

end Rt11

namespace Rt11

/-! ## Claim C2: start blocks are the global cumulative offsets -/

theorem sumLens_append (a b : List Rt11Entry) :
    sumLens (a ++ b) = sumLens a + sumLens b := by
  simp [sumLens]

/-- The per-segment loop advances the global offset by exactly the sum of
the decoded entries' lengths. -/
theorem parseSegEntries_offset (w : Nat → Nat) (ew segNum dsb : Nat) :
    ∀ fuel idx offset,
      (parseSegEntries w ew segNum dsb idx offset fuel).2
        = offset + sumLens (parseSegEntries w ew segNum dsb idx offset fuel).1 := by
  intro fuel
  induction fuel with
  | zero => intro idx off; simp [parseSegEntries, sumLens]
  | succ f ih =>
    intro idx off
    simp only [parseSegEntries]
    by_cases h1 : idx + ew ≤ 512
    · rw [if_pos h1]
      by_cases h2 : w idx &&& E_EOS ≠ 0
      · rw [if_pos h2]; simp [sumLens]
      · rw [if_neg h2]
        by_cases h3 : w idx = 0
        · rw [if_pos h3]; simp [sumLens]
        · rw [if_neg h3]
          have := ih (idx + ew) (off + w (idx + 4))
          simp only [sumLens, List.map_cons, List.sum_cons, mkEntry] at this ⊢
          omega
    · rw [if_neg h1]; simp [sumLens]

/-- Within one segment, each decoded entry's start block is the data
start block plus the entering offset plus the lengths of the entries
decoded before it, truncated to 16 bits. -/
theorem parseSegEntries_startBlocks (w : Nat → Nat) (ew segNum dsb : Nat) :
    ∀ fuel idx offset i,
      i < (parseSegEntries w ew segNum dsb idx offset fuel).1.length →
      ((parseSegEntries w ew segNum dsb idx offset fuel).1.getD i {}).startBlock
        = (dsb + offset
            + sumLens ((parseSegEntries w ew segNum dsb idx offset fuel).1.take i)) % 65536 := by
  intro fuel
  induction fuel with
  | zero => intro idx off i hi; simp [parseSegEntries] at hi
  | succ f ih =>
    intro idx off i hi
    simp only [parseSegEntries] at hi ⊢
    by_cases h1 : idx + ew ≤ 512
    · rw [if_pos h1] at hi ⊢
      by_cases h2 : w idx &&& E_EOS ≠ 0
      · rw [if_pos h2] at hi; simp at hi
      · rw [if_neg h2] at hi ⊢
        by_cases h3 : w idx = 0
        · rw [if_pos h3] at hi; simp at hi
        · rw [if_neg h3] at hi ⊢
          cases i with
          | zero => simp [mkEntry, sumLens]
          | succ k =>
            simp only [List.length_cons] at hi
            have hk : k < (parseSegEntries w ew segNum dsb (idx + ew)
                (off + w (idx + 4)) f).1.length := by
              omega
            have := ih (idx + ew) (off + w (idx + 4)) k hk
            simp only [List.getD_cons_succ, List.take_succ_cons, sumLens, List.map_cons,
              List.sum_cons, mkEntry] at this ⊢
            rw [this]
            ring_nf
    · rw [if_neg h1] at hi; simp at hi

/-- The chain walk preserves the start-block invariant across segments:
every produced entry's start block is the data start block plus the sum
of the lengths of all chain-order predecessors, truncated to 16 bits. -/
theorem dirWalk_startBlocks (d : Disk) (totalBlocks fdb tseg dsb : Nat) :
    ∀ fuel visited cur offset acc,
      offset = sumLens acc →
      (∀ i, i < acc.length → (acc.getD i {}).startBlock
          = (dsb + sumLens (acc.take i)) % 65536) →
      ∀ i, i < (dirWalk d totalBlocks fdb tseg dsb visited cur offset acc fuel).1.length →
        ((dirWalk d totalBlocks fdb tseg dsb visited cur offset acc fuel).1.getD i {}).startBlock
          = (dsb + sumLens
              ((dirWalk d totalBlocks fdb tseg dsb visited cur offset acc fuel).1.take i)) % 65536 := by
  intro fuel
  induction fuel with
  | zero =>
    intro v cur off acc hoff hacc i hi
    simp only [dirWalk] at hi ⊢
    exact hacc i hi
  | succ f ih =>
    intro v cur off acc hoff hacc i hi
    simp only [dirWalk] at hi ⊢
    by_cases h0 : cur = 0
    · rw [if_pos h0] at hi ⊢; exact hacc i hi
    · rw [if_neg h0] at hi ⊢
      by_cases hcr : cur < 1 ∨ tseg < cur
      · rw [if_pos hcr] at hi ⊢; exact hacc i hi
      · rw [if_neg hcr] at hi ⊢
        by_cases hv : v.getD cur false
        · rw [if_pos hv] at hi ⊢; exact hacc i hi
        · rw [if_neg hv] at hi ⊢
          by_cases hb : totalBlocks ≤ fdb + (cur - 1) * 2 + 1
          · rw [if_pos hb] at hi ⊢; exact hacc i hi
          · rw [if_neg hb] at hi ⊢
            apply ih
            · rw [parseSegEntries_offset, hoff, sumLens_append]
            · intro k hk
              rw [List.length_append] at hk
              by_cases hka : k < acc.length
              · rw [List.getD_append _ _ _ _ hka, List.take_append_eq_append_take]
                have hz : k - acc.length = 0 := by omega
                rw [hz]
                simp only [List.take_zero, List.append_nil]
                exact hacc k hka
              · have hge : acc.length ≤ k := by omega
                rw [List.getD_append_right _ _ _ _ hge, List.take_append_eq_append_take,
                  List.take_of_length_le hge, sumLens_append]
                have hm := parseSegEntries_startBlocks
                  (segWordsAt d (fdb + (cur - 1) * 2))
                  (7 + segWordsAt d (fdb + (cur - 1) * 2) 3 / 2)
                  cur dsb 512 5 off (k - acc.length) (by omega)
                rw [hm, hoff]
                ring_nf
            · exact hi

/-- A one-segment disk with data start block 1000 and two empty entries
of lengths 65000 and 10; the cumulative offset of the second entry
exceeds 2^16. -/
def exDisk2 : Disk := fun i =>
  if i < 1536 then 0
  else if i < 2048 then
    let j := i - 1536
    if j = 0 then 1 else if j = 4 then 1000
    else if j = 5 then 512 else if j = 9 then 65000
    else if j = 12 then 512 else if j = 16 then 10
    else if j = 19 then 2048
    else 0
  else 0

/-- Claim C2, counterexample: on `exDisk2` (data start block 1000, first
entry 65000 blocks long), `readDirectory` records the second entry's
start block as 464 = (1000 + 65000) mod 2^16, not 66000 — the `uint16_t`
store on source line 559 truncates the 32-bit sum. -/
theorem C2_startBlock_counterexample :
    (readDirectory exDisk2 10).map (fun p => p.1.map Rt11Entry.startBlock)
      = some [1000, 464]
    ∧ (readDirectory exDisk2 10).map (fun p => p.1.map Rt11Entry.lengthBlocks)
      = some [65000, 10]
    ∧ dataStartBlockOf exDisk2 = 1000
    ∧ (464 : Nat) ≠ 1000 + 65000 := by
  decide

/-- Claim C2, amended: every entry produced by `readDirectory` has
`startBlock` equal to the first segment's data start block plus the sum
of the lengths of every entry preceding it in chain order across all
segments, truncated to 16 bits (`mod 2^16`) — equal to the plain sum
whenever that sum stays below 2^16. -/
theorem C2_startBlock_amended (d : Disk) (totalBlocks : Nat)
    (entries : List Rt11Entry) (warn : Bool)
    (h : readDirectory d totalBlocks = some (entries, warn)) :
    ∀ i, i < entries.length →
      (entries.getD i {}).startBlock
        = (dataStartBlockOf d + sumLens (entries.take i)) % 65536 := by
  intro i hi
  unfold readDirectory at h
  by_cases hf : totalBlocks ≤ getFirstDirectoryBlock d
  · rw [if_pos hf] at h
    exact absurd h (by simp)
  · rw [if_neg hf] at h
    injection h with h2
    have hent := congrArg Prod.fst h2
    simp only at hent
    simp only [dataStartBlockOf]
    rw [← hent] at hi ⊢
    exact dirWalk_startBlocks d totalBlocks (getFirstDirectoryBlock d)
      (clampTotalSegments (segWordsAt d (getFirstDirectoryBlock d) 0))
      (segWordsAt d (getFirstDirectoryBlock d) 4)
      (clampTotalSegments (segWordsAt d (getFirstDirectoryBlock d) 0) + 1)
      (List.replicate
        (clampTotalSegments (segWordsAt d (getFirstDirectoryBlock d) 0) + 1) false)
      1 0 [] (by simp [sumLens]) (by intro j hj; simp at hj) i hi

/-- The entry list `readDirectory` decodes from `exDisk2`. -/
def exEntries2 : List Rt11Entry :=
  ((readDirectory exDisk2 10).getD ([], false)).1

/-- Witness for the amended claim C2 at the second entry of `exDisk2`. -/
theorem C2_startBlock_witness :
    (exEntries2.getD 1 {}).startBlock
      = (dataStartBlockOf exDisk2 + sumLens (exEntries2.take 1)) % 65536 :=
  C2_startBlock_amended exDisk2 10 exEntries2 false (by decide) 1 (by decide)

end Rt11

namespace Rt11

/-! ## Claim C1: first-fit allocation and the directory update -/

theorem isFreeFit_iff (n : Nat) (x : Rt11Entry) :
    isFreeFit n x = true ↔
      (x.empty = true ∧ x.permanent = false ∧ x.tentative = false ∧ n ≤ x.lengthBlocks) := by
  simp only [isFreeFit, Bool.and_eq_true, Bool.not_eq_true', decide_eq_true_eq]
  tauto

theorem findEmptyEntry_none_iff (entries : List Rt11Entry) (n : Nat) :
    findEmptyEntry entries n = none ↔
      ∀ e ∈ entries, ¬(e.empty = true ∧ e.permanent = false ∧ e.tentative = false
        ∧ n ≤ e.lengthBlocks) := by
  induction entries with
  | nil => simp [findEmptyEntry]
  | cons x xs ih =>
    rw [findEmptyEntry] at ih ⊢
    rw [List.find?_cons]
    by_cases hx : isFreeFit n x
    · simp only [hx]
      constructor
      · intro h; exact absurd h (by simp)
      · intro h
        exact absurd ((isFreeFit_iff n x).mp hx) (h x (by simp))
    · rw [Bool.not_eq_true] at hx
      simp only [hx, ih]
      constructor
      · intro h e he
        rcases List.mem_cons.mp he with rfl | he2
        · intro hc
          rw [← isFreeFit_iff] at hc
          simp [hx] at hc
        · exact h e he2
      · intro h e he
        exact h e (List.mem_cons_of_mem x he)

theorem findEmptyEntry_some (entries : List Rt11Entry) (n : Nat) (e : Rt11Entry)
    (h : findEmptyEntry entries n = some e) :
    ∃ pre post, entries = pre ++ e :: post
      ∧ (e.empty = true ∧ e.permanent = false ∧ e.tentative = false ∧ n ≤ e.lengthBlocks)
      ∧ ∀ x ∈ pre, ¬(x.empty = true ∧ x.permanent = false ∧ x.tentative = false
          ∧ n ≤ x.lengthBlocks) := by
  induction entries with
  | nil => simp [findEmptyEntry] at h
  | cons x xs ih =>
    rw [findEmptyEntry, List.find?_cons] at h
    by_cases hx : isFreeFit n x
    · simp only [hx] at h
      injection h with h
      subst h
      exact ⟨[], xs, rfl, (isFreeFit_iff n x).mp hx, by simp⟩
    · rw [Bool.not_eq_true] at hx
      simp only [hx] at h
      obtain ⟨pre, post, heq, hfit, hpre⟩ := ih h
      refine ⟨x :: pre, post, by rw [heq]; rfl, hfit, ?_⟩
      intro y hy
      rcases List.mem_cons.mp hy with rfl | hy2
      · intro hc
        rw [← isFreeFit_iff] at hc
        simp [hx] at hc
      · exact hpre y hy2

theorem parseSegEntries_cons_inv (w : Nat → Nat) (ew segNum dsb : Nat)
    (fuel idx offset : Nat) (c : Rt11Entry) (rest : List Rt11Entry)
    (h : (parseSegEntries w ew segNum dsb idx offset fuel).1 = c :: rest) :
    1 ≤ fuel ∧ idx + ew ≤ 512 ∧ w idx &&& E_EOS = 0 ∧ w idx ≠ 0
      ∧ c = mkEntry w segNum dsb idx offset
      ∧ (parseSegEntries w ew segNum dsb (idx + ew) (offset + w (idx + 4)) (fuel - 1)).1
          = rest := by
  match fuel with
  | 0 => simp [parseSegEntries] at h
  | f + 1 =>
    simp only [parseSegEntries] at h
    by_cases h1 : idx + ew ≤ 512
    · rw [if_pos h1] at h
      by_cases h2 : w idx &&& E_EOS ≠ 0
      · rw [if_pos h2] at h; simp at h
      · rw [if_neg h2] at h
        by_cases h3 : w idx = 0
        · rw [if_pos h3] at h; simp at h
        · rw [if_neg h3] at h
          simp only [List.cons.injEq] at h
          refine ⟨by omega, h1, by simpa using h2, h3, h.1.symm, ?_⟩
          simpa using h.2
    · rw [if_neg h1] at h; simp at h

theorem parseSegEntries_split (w : Nat → Nat) (ew segNum dsb : Nat) :
    ∀ (pre : List Rt11Entry) (fuel idx offset : Nat) (rest : List Rt11Entry),
      (parseSegEntries w ew segNum dsb idx offset fuel).1 = pre ++ rest →
      (parseSegEntries w ew segNum dsb (idx + pre.length * ew)
        (offset + sumLens pre) (fuel - pre.length)).1 = rest := by
  intro pre
  induction pre with
  | nil =>
    intro fuel idx offset rest h
    simpa [sumLens] using h
  | cons p pre ih =>
    intro fuel idx offset rest h
    rw [List.cons_append] at h
    obtain ⟨hf, h1, h2, h3, hc, htail⟩ := parseSegEntries_cons_inv w ew segNum dsb
      fuel idx offset p (pre ++ rest) h
    have := ih (fuel - 1) (idx + ew) (offset + w (idx + 4)) rest htail
    have harith1 : idx + ew + pre.length * ew = idx + (p :: pre).length * ew := by
      simp [List.length_cons]; ring
    have harith2 : offset + w (idx + 4) + sumLens pre = offset + sumLens (p :: pre) := by
      rw [hc]
      simp only [sumLens, List.map_cons, List.sum_cons, mkEntry]
      omega
    have harith3 : fuel - 1 - pre.length = fuel - (p :: pre).length := by
      simp [List.length_cons]; omega
    rw [harith1, harith2, harith3] at this
    exact this

theorem parseSegEntries_congr (w w2 : Nat → Nat) (ew segNum dsb : Nat) (hew : 7 ≤ ew) :
    ∀ fuel idx offset,
      (∀ j, idx ≤ j → j < 512 → w2 j = w j) →
      parseSegEntries w2 ew segNum dsb idx offset fuel
        = parseSegEntries w ew segNum dsb idx offset fuel := by
  intro fuel
  induction fuel with
  | zero => intro idx off hagree; simp [parseSegEntries]
  | succ f ih =>
    intro idx off hagree
    simp only [parseSegEntries]
    by_cases h1 : idx + ew ≤ 512
    · rw [if_pos h1, if_pos h1]
      have hidx : ∀ k, k ≤ 6 → w2 (idx + k) = w (idx + k) := by
        intro k hk
        exact hagree (idx + k) (by omega) (by omega)
      have h0 := hidx 0 (by omega)
      rw [Nat.add_zero] at h0
      rw [h0]
      by_cases h2 : w idx &&& E_EOS ≠ 0
      · rw [if_pos h2, if_pos h2]
      · rw [if_neg h2, if_neg h2]
        by_cases h3 : w idx = 0
        · rw [if_pos h3, if_pos h3]
        · rw [if_neg h3, if_neg h3]
          have hrec := ih (idx + ew) (off + w (idx + 4)) (by
            intro j hj1 hj2
            exact hagree j (by omega) hj2)
          have h4 := hidx 4 (by omega)
          have hmk : mkEntry w2 segNum dsb idx off = mkEntry w segNum dsb idx off := by
            simp only [mkEntry, h0, hidx 1 (by omega), hidx 2 (by omega),
              hidx 3 (by omega), hidx 4 (by omega), hidx 6 (by omega)]
          rw [hmk, h4, hrec]
    · rw [if_neg h1, if_neg h1]

theorem parseSegEntries_prefix_congr (w w2 : Nat → Nat) (ew segNum dsb : Nat)
    (hew : 7 ≤ ew) :
    ∀ (pre : List Rt11Entry) (fuel idx offset : Nat) (rest : List Rt11Entry),
      (parseSegEntries w ew segNum dsb idx offset fuel).1 = pre ++ rest →
      (∀ j, idx ≤ j → j < idx + pre.length * ew → w2 j = w j) →
      (parseSegEntries w2 ew segNum dsb idx offset fuel).1
        = pre ++ (parseSegEntries w2 ew segNum dsb (idx + pre.length * ew)
            (offset + sumLens pre) (fuel - pre.length)).1 := by
  intro pre
  induction pre with
  | nil =>
    intro fuel idx offset rest h hagree
    simp [sumLens]
  | cons p pre ih =>
    intro fuel idx offset rest h hagree
    rw [List.cons_append] at h
    obtain ⟨hf, h1, h2, h3, hc, htail⟩ := parseSegEntries_cons_inv w ew segNum dsb
      fuel idx offset p (pre ++ rest) h
    obtain ⟨f, rfl⟩ : ∃ f, fuel = f + 1 := ⟨fuel - 1, by omega⟩
    have hag6 : ∀ k, k ≤ 6 → w2 (idx + k) = w (idx + k) := by
      intro k hk
      apply hagree (idx + k) (by omega)
      have : 1 * ew ≤ (p :: pre).length * ew :=
        Nat.mul_le_mul_right ew (by simp)
      omega
    have h0 := hag6 0 (by omega)
    rw [Nat.add_zero] at h0
    simp only [parseSegEntries]
    rw [if_pos h1, h0, if_neg (by simpa using h2), if_neg h3]
    have hmk : mkEntry w2 segNum dsb idx offset = p := by
      rw [hc]
      simp only [mkEntry, h0, hag6 1 (by omega), hag6 2 (by omega), hag6 3 (by omega),
        hag6 4 (by omega), hag6 6 (by omega)]
    have h4 := hag6 4 (by omega)
    have hrec := ih f (idx + ew) (offset + w (idx + 4)) rest (by simpa using htail) (by
      intro j hj1 hj2
      apply hagree j (by omega)
      simp only [List.length_cons] at hj2 ⊢
      have : (pre.length + 1) * ew = pre.length * ew + ew := by ring
      omega)
    simp only [List.cons_append, List.cons.injEq]
    refine ⟨hmk, ?_⟩
    rw [h4, hrec]
    have e1 : idx + ew + pre.length * ew = idx + (p :: pre).length * ew := by
      simp only [List.length_cons]; ring
    have e2 : offset + w (idx + 4) + sumLens pre = offset + sumLens (p :: pre) := by
      rw [hc]
      simp only [sumLens, List.map_cons, List.sum_cons, mkEntry]
      omega
    have e3 : f - pre.length = f + 1 - (p :: pre).length := by
      simp only [List.length_cons]; omega
    rw [e1, e2, e3]

end Rt11

namespace Rt11

theorem writeEntryAt_out (v : Nat → Nat) (a st x1 x2 x3 x4 x5 x6 j : Nat)
    (hj : j < a ∨ a + 6 < j) :
    writeEntryAt v a st x1 x2 x3 x4 x5 x6 j = v j := by
  simp only [writeEntryAt]
  split_ifs with h1 h2 h3 h4 h5 h6 h7 <;> first | rfl | omega

theorem writeEntryAt_vals (v : Nat → Nat) (a st x1 x2 x3 x4 x5 x6 : Nat) :
    writeEntryAt v a st x1 x2 x3 x4 x5 x6 a = st
    ∧ writeEntryAt v a st x1 x2 x3 x4 x5 x6 (a + 1) = x1
    ∧ writeEntryAt v a st x1 x2 x3 x4 x5 x6 (a + 2) = x2
    ∧ writeEntryAt v a st x1 x2 x3 x4 x5 x6 (a + 3) = x3
    ∧ writeEntryAt v a st x1 x2 x3 x4 x5 x6 (a + 4) = x4
    ∧ writeEntryAt v a st x1 x2 x3 x4 x5 x6 (a + 5) = x5
    ∧ writeEntryAt v a st x1 x2 x3 x4 x5 x6 (a + 6) = x6 := by
  refine ⟨?_, ?_, ?_, ?_, ?_, ?_, ?_⟩ <;>
    · simp only [writeEntryAt]
      repeat rw [if_neg (by omega)]
      simp

theorem shiftUp_out (v : Nat → Nat) (insertIdx eosIdx ew j : Nat)
    (hj : j < insertIdx + ew ∨ eosIdx + ew ≤ j) :
    shiftUp v insertIdx eosIdx ew j = v j := by
  simp only [shiftUp]
  rw [if_neg (by omega)]

/-- Every store of the directory update lands at or after the converted
entry's word index, so words below it are untouched. -/
theorem dirUpdateWords_out_low (w : Nat → Nat) (ew idx n rem eos n1 n2 ext dateW : Nat)
    (hb : idx + ew ≤ 512) (hew : 7 ≤ ew) (j : Nat) (hj : j < idx) :
    dirUpdateWords w ew idx n rem eos n1 n2 ext dateW j = w j := by
  have hins : (idx + ew) % 65536 = idx + ew := Nat.mod_eq_of_lt (by omega)
  simp only [dirUpdateWords, hins]
  have hne2 : (idx + ew + ew) % 65536 = idx + ew + ew := Nat.mod_eq_of_lt (by omega)
  by_cases hrem : rem > 0
  · rw [if_pos hrem]
    simp only [hne2]
    rw [if_neg (by omega), if_neg (by omega)]
    rw [writeEntryAt_out _ _ _ _ _ _ _ _ _ _ (by omega)]
    by_cases hsh : idx + ew < eos
    · rw [if_pos hsh, shiftUp_out _ _ _ _ _ (by omega),
        writeEntryAt_out _ _ _ _ _ _ _ _ _ _ (by omega)]
    · rw [if_neg hsh, writeEntryAt_out _ _ _ _ _ _ _ _ _ _ (by omega)]
  · rw [if_neg hrem]
    rw [writeEntryAt_out _ _ _ _ _ _ _ _ _ _ (by omega)]

/-- The converted entry's seven words read back as the permanent entry
just stored, untouched by the later stores. -/
theorem dirUpdateWords_perm_vals (w : Nat → Nat) (ew idx n rem eos n1 n2 ext dateW : Nat)
    (hb : idx + ew ≤ 512) (hew : 7 ≤ ew) :
    ∀ k, k ≤ 6 →
      dirUpdateWords w ew idx n rem eos n1 n2 ext dateW (idx + k)
        = writeEntryAt w idx E_PERM n1 n2 ext n 0 dateW (idx + k) := by
  intro k hk
  have hins : (idx + ew) % 65536 = idx + ew := Nat.mod_eq_of_lt (by omega)
  simp only [dirUpdateWords, hins]
  have hne2 : (idx + ew + ew) % 65536 = idx + ew + ew := Nat.mod_eq_of_lt (by omega)
  by_cases hrem : rem > 0
  · rw [if_pos hrem]
    simp only [hne2]
    rw [if_neg (by omega), if_neg (by omega)]
    rw [writeEntryAt_out _ _ _ _ _ _ _ _ _ _ (by omega)]
    by_cases hsh : idx + ew < eos
    · rw [if_pos hsh, shiftUp_out _ _ _ _ _ (by omega)]
    · rw [if_neg hsh]
  · rw [if_neg hrem]

/-- When blocks remain, the inserted empty entry's seven words read back
exactly as stored. -/
theorem dirUpdateWords_empty_vals (w : Nat → Nat) (ew idx n rem eos n1 n2 ext dateW : Nat)
    (hb : idx + ew ≤ 512) (hew : 7 ≤ ew) (hrem : 0 < rem) :
    ∀ k, k ≤ 6 →
      dirUpdateWords w ew idx n rem eos n1 n2 ext dateW (idx + ew + k)
        = writeEntryAt (fun _ => 0) (idx + ew) E_MPTY 0 0 0 rem 0 0 (idx + ew + k) := by
  intro k hk
  have hins : (idx + ew) % 65536 = idx + ew := Nat.mod_eq_of_lt (by omega)
  simp only [dirUpdateWords, hins]
  have hne2 : (idx + ew + ew) % 65536 = idx + ew + ew := Nat.mod_eq_of_lt (by omega)
  rw [if_pos hrem]
  simp only [hne2]
  rw [if_neg (by omega), if_neg (by omega)]
  simp only [writeEntryAt]
  split_ifs <;> first | rfl | omega

/-- When blocks remain, an end-of-segment mark follows the inserted empty
entry. -/
theorem dirUpdateWords_eos_val (w : Nat → Nat) (ew idx n rem eos n1 n2 ext dateW : Nat)
    (hb : idx + ew ≤ 512) (hew : 7 ≤ ew) (hrem : 0 < rem) :
    dirUpdateWords w ew idx n rem eos n1 n2 ext dateW (idx + ew + ew) = E_EOS := by
  have hins : (idx + ew) % 65536 = idx + ew := Nat.mod_eq_of_lt (by omega)
  simp only [dirUpdateWords, hins]
  have hne2 : (idx + ew + ew) % 65536 = idx + ew + ew := Nat.mod_eq_of_lt (by omega)
  rw [if_pos hrem]
  simp only [hne2]
  simp

/-- An exact fit only rewrites the converted entry's seven words. -/
theorem dirUpdateWords_rem0_out (w : Nat → Nat) (ew idx n eos n1 n2 ext dateW : Nat)
    (j : Nat) (hj : j < idx ∨ idx + 6 < j) :
    dirUpdateWords w ew idx n 0 eos n1 n2 ext dateW j = w j := by
  simp only [dirUpdateWords]
  rw [if_neg (by omega)]
  exact writeEntryAt_out _ _ _ _ _ _ _ _ _ _ hj

theorem decodeFileName_zero : decodeFileName 0 0 0 = [] := by decide

end Rt11

namespace Rt11

theorem dirUpdate_decode (w : Nat → Nat) (ew segNum dsb offset n n1 n2 ext dateW : Nat)
    (pre post : List Rt11Entry) (c : Rt11Entry)
    (hew : 7 ≤ ew)
    (hparse : (parseSegEntries w ew segNum dsb 5 offset 512).1 = pre ++ c :: post)
    (hn : n ≤ c.lengthBlocks)
    (hfit : 0 < c.lengthBlocks - n → c.wordIndex + ew + ew + ew ≤ 512) :
    (parseSegEntries (dirUpdateWords w ew c.wordIndex n (c.lengthBlocks - n)
        (scanEosIdx w ew 5 512) n1 n2 ext dateW) ew segNum dsb 5 offset 512).1
      = pre ++ { name := decodeFileName n1 n2 ext,
                 startBlock := c.startBlock,
                 lengthBlocks := n,
                 status := E_PERM,
                 dateWord := dateW,
                 tentative := false, empty := false, permanent := true, eos := false,
                 segNumber := segNum, wordIndex := c.wordIndex }
          :: (if 0 < c.lengthBlocks - n then
                [{ name := [], startBlock := (c.startBlock + n) % 65536,
                   lengthBlocks := c.lengthBlocks - n, status := E_MPTY,
                   dateWord := 0, tentative := false, empty := true,
                   permanent := false, eos := false, segNumber := segNum,
                   wordIndex := c.wordIndex + ew }]
              else post) := by
  have hsplit := parseSegEntries_split w ew segNum dsb pre 512 5 offset (c :: post) hparse
  obtain ⟨hf, h1, h2, h3, hc, htail⟩ := parseSegEntries_cons_inv w ew segNum dsb
    (512 - pre.length) (5 + pre.length * ew) (offset + sumLens pre) c post hsplit
  have hcw : c.wordIndex = 5 + pre.length * ew := by rw [hc]; rfl
  have hcl : c.lengthBlocks = w (5 + pre.length * ew + 4) := by rw [hc]; rfl
  have hcs : c.startBlock = (dsb + (offset + sumLens pre)) % 65536 := by rw [hc]; rfl
  have hplen : pre.length ≤ 71 := by
    have hmul : pre.length * 7 ≤ pre.length * ew := Nat.mul_le_mul_left _ hew
    omega
  have hfuel2 : 2 ≤ 512 - pre.length := by omega
  rw [hcw] at hfit ⊢
  rw [hcl] at hn hfit ⊢
  rw [hcs]
  set idx := 5 + pre.length * ew with hidx
  set off := offset + sumLens pre with hoff
  set rem := w (idx + 4) - n with hrem
  set eosv := scanEosIdx w ew 5 512 with heos
  set W2 := dirUpdateWords w ew idx n rem eosv n1 n2 ext dateW with hW2def
  -- step 1: the prefix decodes unchanged
  have hpref := parseSegEntries_prefix_congr w W2 ew segNum dsb hew pre 512 5 offset
    (c :: post) hparse (by
      intro j hj1 hj2
      exact dirUpdateWords_out_low w ew idx n rem eosv n1 n2 ext dateW h1 hew j (by omega))
  rw [hpref]
  -- step 2: the perm entry values
  have hv := writeEntryAt_vals w idx E_PERM n1 n2 ext n 0 dateW
  have hW0 : W2 idx = E_PERM := by
    have h := dirUpdateWords_perm_vals w ew idx n rem eosv n1 n2 ext dateW h1 hew 0 (by omega)
    rw [Nat.add_zero] at h
    rw [hW2def, h, hv.1]
  have hWk : ∀ k, 1 ≤ k → k ≤ 6 → W2 (idx + k)
      = writeEntryAt w idx E_PERM n1 n2 ext n 0 dateW (idx + k) := by
    intro k hk1 hk6
    exact dirUpdateWords_perm_vals w ew idx n rem eosv n1 n2 ext dateW h1 hew k hk6
  have hW1 : W2 (idx + 1) = n1 := by rw [hWk 1 (by omega) (by omega), hv.2.1]
  have hW2v : W2 (idx + 2) = n2 := by rw [hWk 2 (by omega) (by omega), hv.2.2.1]
  have hW3 : W2 (idx + 3) = ext := by rw [hWk 3 (by omega) (by omega), hv.2.2.2.1]
  have hW4 : W2 (idx + 4) = n := by rw [hWk 4 (by omega) (by omega), hv.2.2.2.2.1]
  have hW6 : W2 (idx + 6) = dateW := by rw [hWk 6 (by omega) (by omega), hv.2.2.2.2.2.2]
  -- step 3: unfold the parse at the converted entry
  obtain ⟨f, hfeq⟩ : ∃ f, 512 - pre.length = f + 1 := ⟨512 - pre.length - 1, by omega⟩
  rw [hfeq]
  simp only [parseSegEntries]
  rw [if_pos h1, hW0, if_neg (by decide), if_neg (by decide)]
  have hmkP : mkEntry W2 segNum dsb idx off =
      { name := decodeFileName n1 n2 ext,
        startBlock := (dsb + off) % 65536,
        lengthBlocks := n,
        status := E_PERM,
        dateWord := dateW,
        tentative := false, empty := false, permanent := true, eos := false,
        segNumber := segNum, wordIndex := idx } := by
    simp only [mkEntry, hW0, hW1, hW2v, hW3, hW4, hW6]
    simp
    decide
  rw [hmkP, hW4]
  simp only [List.cons.injEq, List.append_cancel_left_eq, List.cons_append]
  refine ⟨by trivial, ?_⟩
  -- step 4: the tail
  by_cases hr : 0 < rem
  · rw [if_pos hr]
    have hfit2 : idx + ew + ew + ew ≤ 512 := hfit hr
    -- the new empty entry
    have hev := writeEntryAt_vals (fun _ => 0) (idx + ew) E_MPTY 0 0 0 rem 0 0
    have hE : ∀ k, k ≤ 6 → W2 (idx + ew + k)
        = writeEntryAt (fun _ => 0) (idx + ew) E_MPTY 0 0 0 rem 0 0 (idx + ew + k) := by
      intro k hk
      exact dirUpdateWords_empty_vals w ew idx n rem eosv n1 n2 ext dateW h1 hew hr k hk
    have hE0 : W2 (idx + ew) = E_MPTY := by
      have h := hE 0 (by omega)
      rw [Nat.add_zero] at h
      rw [h, hev.1]
    have hE1 : W2 (idx + ew + 1) = 0 := by rw [hE 1 (by omega), hev.2.1]
    have hE2 : W2 (idx + ew + 2) = 0 := by rw [hE 2 (by omega), hev.2.2.1]
    have hE3 : W2 (idx + ew + 3) = 0 := by rw [hE 3 (by omega), hev.2.2.2.1]
    have hE4 : W2 (idx + ew + 4) = rem := by rw [hE 4 (by omega), hev.2.2.2.2.1]
    have hE6 : W2 (idx + ew + 6) = 0 := by rw [hE 6 (by omega), hev.2.2.2.2.2.2]
    obtain ⟨g, hgeq⟩ : ∃ g, f = g + 1 := ⟨f - 1, by omega⟩
    rw [hgeq]
    simp only [parseSegEntries]
    rw [if_pos (by omega), hE0, if_neg (by decide), if_neg (by decide)]
    have hmkE : mkEntry W2 segNum dsb (idx + ew) (off + n) =
        { name := [], startBlock := ((dsb + off) % 65536 + n) % 65536,
          lengthBlocks := rem, status := E_MPTY,
          dateWord := 0, tentative := false, empty := true,
          permanent := false, eos := false, segNumber := segNum,
          wordIndex := idx + ew } := by
      simp only [mkEntry, hE0, hE1, hE2, hE3, hE4, hE6]
      simp only [decodeFileName_zero]
      have : ((dsb + off) % 65536 + n) % 65536 = (dsb + (off + n)) % 65536 := by
        rw [Nat.mod_add_mod]
        ring_nf
      simp [this]
      decide
    rw [hmkE, hE4]
    simp only [List.cons.injEq]
    refine ⟨by trivial, ?_⟩
    -- the EOS stops the parse
    have hEOS : W2 (idx + ew + ew) = E_EOS := by
      exact dirUpdateWords_eos_val w ew idx n rem eosv n1 n2 ext dateW h1 hew hr
    obtain ⟨g2, hg2⟩ : ∃ g2, g = g2 + 1 := ⟨g - 1, by omega⟩
    rw [hg2]
    simp only [parseSegEntries]
    rw [if_pos (by omega), hEOS, if_pos (by decide)]
  · rw [if_neg hr]
    -- exact fit: everything at and after idx + ew is untouched
    have hnl : n = w (idx + 4) := by omega
    have hcong := parseSegEntries_congr w W2 ew segNum dsb hew f (idx + ew) (off + n) (by
      intro j hj1 hj2
      rw [hW2def, hrem]
      have hz : w (idx + 4) - n = 0 := by omega
      rw [hz]
      exact dirUpdateWords_rem0_out w ew idx n eosv n1 n2 ext dateW j (by omega))
    rw [hcong]
    rw [← hnl] at htail
    rw [hfeq] at htail
    simpa using htail

theorem copy_noSpace (d : Disk) (totalBlocks : Nat) (data : List Nat) (rtname : List Char)
    (odw sdw fuel : Nat) (entries : List Rt11Entry) (warn : Bool)
    (hread : readDirectory d totalBlocks = some (entries, warn))
    (hfind : findEmptyEntry entries (blocksNeededFor data) = none) :
    copySingleToRt11 totalBlocks data rtname false odw sdw d (fuel + 1)
      = ⟨d, [], some .noSpace, false⟩ := by
  simp only [copySingleToRt11]
  rw [hread]
  simp only [Bool.false_and, Bool.false_eq_true, if_false]
  rw [hfind]

end Rt11

namespace Rt11

/-- Claim C1: the allocator of `copySingleToRt11` is first-fit over the
decoded entry list, and the directory update it performs converts the
chosen entry in place.  Four parts: (1) the search fails exactly when no
entry is Empty (empty flag set, permanent and tentative clear) with
length ≥ N; (2) on success the chosen entry is Empty with length ≥ N and
every entry before it in chain order fails the test; (3) when no entry
qualifies, `copySingleToRt11` stops with the no-space error, writing
nothing; (4) re-decoding the updated segment shows the chosen entry of
length L replaced, at the same word index and start block, by a
Permanent entry of length N, followed by a new Empty entry of length
L − N exactly when L − N > 0 (an exact fit leaves the following entries
unchanged and inserts nothing). -/
theorem C1_allocator_first_fit :
    (∀ (entries : List Rt11Entry) (n : Nat),
      findEmptyEntry entries n = none ↔
        ∀ e ∈ entries, ¬(e.empty = true ∧ e.permanent = false ∧ e.tentative = false
          ∧ n ≤ e.lengthBlocks))
    ∧ (∀ (entries : List Rt11Entry) (n : Nat) (e : Rt11Entry),
        findEmptyEntry entries n = some e →
        ∃ pre post, entries = pre ++ e :: post
          ∧ (e.empty = true ∧ e.permanent = false ∧ e.tentative = false
             ∧ n ≤ e.lengthBlocks)
          ∧ ∀ x ∈ pre, ¬(x.empty = true ∧ x.permanent = false ∧ x.tentative = false
              ∧ n ≤ x.lengthBlocks))
    ∧ (∀ (d : Disk) (totalBlocks : Nat) (data : List Nat) (rtname : List Char)
        (odw sdw fuel : Nat) (entries : List Rt11Entry) (warn : Bool),
        readDirectory d totalBlocks = some (entries, warn) →
        findEmptyEntry entries (blocksNeededFor data) = none →
        copySingleToRt11 totalBlocks data rtname false odw sdw d (fuel + 1)
          = ⟨d, [], some .noSpace, false⟩)
    ∧ (∀ (w : Nat → Nat) (ew segNum dsb offset n n1 n2 ext dateW : Nat)
        (pre post : List Rt11Entry) (c : Rt11Entry),
        7 ≤ ew →
        (parseSegEntries w ew segNum dsb 5 offset 512).1 = pre ++ c :: post →
        n ≤ c.lengthBlocks →
        (0 < c.lengthBlocks - n → c.wordIndex + ew + ew + ew ≤ 512) →
        (parseSegEntries (dirUpdateWords w ew c.wordIndex n (c.lengthBlocks - n)
            (scanEosIdx w ew 5 512) n1 n2 ext dateW) ew segNum dsb 5 offset 512).1
          = pre ++ { name := decodeFileName n1 n2 ext,
                     startBlock := c.startBlock,
                     lengthBlocks := n,
                     status := E_PERM,
                     dateWord := dateW,
                     tentative := false, empty := false, permanent := true, eos := false,
                     segNumber := segNum, wordIndex := c.wordIndex }
              :: (if 0 < c.lengthBlocks - n then
                    [{ name := [], startBlock := (c.startBlock + n) % 65536,
                       lengthBlocks := c.lengthBlocks - n, status := E_MPTY,
                       dateWord := 0, tentative := false, empty := true,
                       permanent := false, eos := false, segNumber := segNum,
                       wordIndex := c.wordIndex + ew }]
                  else post)) :=
  ⟨findEmptyEntry_none_iff, findEmptyEntry_some, copy_noSpace, dirUpdate_decode⟩

/-- A one-segment disk with a single empty entry of length 10 at data
start block 20. -/
def exDiskOk : Disk := fun i =>
  if i < 1536 then 0
  else if i < 2048 then
    let j := i - 1536
    if j = 0 then 1 else if j = 2 then 1 else if j = 4 then 20
    else if j = 5 then 512 else if j = 9 then 10
    else if j = 12 then 2048
    else 0
  else 0

/-- Like `exDiskOk`, but the lone empty entry has length 0, so no
allocation can succeed. -/
def exDiskNS : Disk := fun i =>
  if i < 1536 then 0
  else if i < 2048 then
    let j := i - 1536
    if j = 0 then 1 else if j = 2 then 1 else if j = 4 then 20
    else if j = 5 then 512
    else if j = 12 then 2048
    else 0
  else 0

/-- The entry list `readDirectory` decodes from `exDiskOk`. -/
def exEntriesOk : List Rt11Entry :=
  ((readDirectory exDiskOk 40).getD ([], false)).1

/-- The entry list `readDirectory` decodes from `exDiskNS`. -/
def exEntriesNS : List Rt11Entry :=
  ((readDirectory exDiskNS 40).getD ([], false)).1

/-- The empty entry of `exDiskOk`'s only segment. -/
def exSegChosen : Rt11Entry :=
  (parseSegEntries (segWordsAt exDiskOk 6) 7 1 20 5 0 512).1.getD 0 {}

/-- Witness for claim C1: on `exDiskOk` the allocator picks the lone
empty entry; on `exDiskNS` (no fitting empty region) the copy aborts
with a no-space error and no writes; and updating `exDiskOk`'s segment
for a 1-block file yields the permanent entry plus a 9-block empty
remainder. -/
theorem C1_allocator_first_fit_witness :
    (∃ pre post, exEntriesOk = pre ++ (exEntriesOk.getD 0 {}) :: post
      ∧ ((exEntriesOk.getD 0 {}).empty = true ∧ (exEntriesOk.getD 0 {}).permanent = false
         ∧ (exEntriesOk.getD 0 {}).tentative = false
         ∧ 1 ≤ (exEntriesOk.getD 0 {}).lengthBlocks)
      ∧ ∀ x ∈ pre, ¬(x.empty = true ∧ x.permanent = false ∧ x.tentative = false
          ∧ 1 ≤ x.lengthBlocks))
    ∧ copySingleToRt11 40 [7] [] false 0 0 exDiskNS 1
        = ⟨exDiskNS, [], some .noSpace, false⟩
    ∧ (parseSegEntries (dirUpdateWords (segWordsAt exDiskOk 6) 7 exSegChosen.wordIndex 1
          (exSegChosen.lengthBlocks - 1) (scanEosIdx (segWordsAt exDiskOk 6) 7 5 512)
          0 0 0 0) 7 1 20 5 0 512).1
        = [] ++ { name := decodeFileName 0 0 0, startBlock := exSegChosen.startBlock,
                  lengthBlocks := 1, status := E_PERM, dateWord := 0,
                  tentative := false, empty := false, permanent := true, eos := false,
                  segNumber := 1, wordIndex := exSegChosen.wordIndex }
            :: (if 0 < exSegChosen.lengthBlocks - 1 then
                  [{ name := [], startBlock := (exSegChosen.startBlock + 1) % 65536,
                     lengthBlocks := exSegChosen.lengthBlocks - 1, status := E_MPTY,
                     dateWord := 0, tentative := false, empty := true, permanent := false,
                     eos := false, segNumber := 1, wordIndex := exSegChosen.wordIndex + 7 }]
                else []) :=
  ⟨C1_allocator_first_fit.2.1 exEntriesOk 1 (exEntriesOk.getD 0 {}) (by decide),
   C1_allocator_first_fit.2.2.1 exDiskNS 40 [7] [] 0 0 0 exEntriesNS false
     (by decide) (by decide),
   C1_allocator_first_fit.2.2.2 (segWordsAt exDiskOk 6) 7 1 20 0 1 0 0 0 0 [] [] exSegChosen
     (by decide) (by decide) (by decide) (by decide)⟩

end Rt11

namespace Rt11

/-! ## Claim C3: splitting segment 1 is undone by the header rewrite -/

/-- A two-segment volume whose chain holds only segment 1, with
`highestInUse = 1`, data start block 100, and two permanent entries of
lengths 2 and 3 (`ew = 7`). -/
def exDisk3 : Disk := fun i =>
  if i < 1536 then 0
  else if i < 2048 then
    let j := i - 1536
    if j = 0 then 2 else if j = 2 then 1 else if j = 4 then 100
    else if j = 5 then 1024 else if j = 9 then 2
    else if j = 12 then 1024 else if j = 16 then 3
    else if j = 19 then 2048
    else 0
  else 0

/-- The disk after `splitDirectorySegment exDisk3 1`. -/
def exSplit3Disk : Disk :=
  match splitDirectorySegment exDisk3 1 with
  | .ok dt => dt.1
  | .error _ => exDisk3

/-- Whether the split of `exDisk3` succeeded. -/
def exSplit3Ok : Bool :=
  match splitDirectorySegment exDisk3 1 with
  | .ok _ => true
  | .error _ => false

/-- The block write trace of `splitDirectorySegment exDisk3 1`. -/
def exSplit3Trace : List Nat :=
  match splitDirectorySegment exDisk3 1 with
  | .ok dt => dt.2
  | .error _ => []

/-- Claim C3, evaluated at the failing input: splitting segment 1 of
`exDisk3` chooses split position 1 (entry E2, word index 12), so the
claim requires the old segment to decode to `[E1]` with an EndOfSegment
mark at word 12 and a link to the new segment 2.  The split does write
that (blocks 6,7), and writes the new segment correctly (blocks 8,9:
exactly `[E2]` followed by EOS, link 0), and `highestInUse` becomes
`max(1,2) = 2` as claimed — but because `highestInUse` increased, the
final segment-1 rewrite (source lines 1006-1021) writes back the STALE
pre-split words of segment 1, so on the final volume segment 1 still
decodes to `[E1, E2]`, word 12 still holds `E_PERM`, and the next-link
word is 0: the split is lost and the new segment is unreachable. -/
theorem C3_split_seg1_clobbered :
    exSplit3Ok = true
    ∧ exSplit3Trace = [6, 7, 8, 9, 6, 7]
    ∧ chooseSplitPos (segWordsAt exDisk3 6) (collectEntryIdx (segWordsAt exDisk3 6) 7 5 512) = 1
    ∧ (parseSegEntries (segWordsAt exDisk3 6) 7 1 100 5 0 512).1.length = 2
    ∧ (parseSegEntries (segWordsAt exSplit3Disk 6) 7 1 100 5 0 512).1.length = 2
    ∧ wordAt exSplit3Disk (6 * 256 + 12) = E_PERM
    ∧ wordAt exSplit3Disk (6 * 256 + 1) = 0
    ∧ wordAt exSplit3Disk (6 * 256 + 2) = 2
    ∧ (parseSegEntries (segWordsAt exSplit3Disk 8) 7 2 100 5 0 512).1.map Rt11Entry.lengthBlocks
        = [3]
    ∧ wordAt exSplit3Disk (8 * 256 + 1) = 0
    ∧ wordAt exSplit3Disk (8 * 256 + 12) = E_EOS := by
  decide

end Rt11

namespace Rt11

/-! ## Claim C5: write ordering -/

/-- On a successful split, the write trace is exactly: the old segment's
two blocks, then the new segment's two blocks, then — exactly when
`highestInUse` increases — segment 1's two blocks. -/
theorem split_trace_shape (d : Disk) (seg : Nat) (d2 : Disk) (tr : List Nat)
    (h : splitDirectorySegment d seg = .ok (d2, tr)) :
    ∃ nseg,
      (tr = [getFirstDirectoryBlock d + (seg - 1) * 2,
             getFirstDirectoryBlock d + (seg - 1) * 2 + 1,
             getFirstDirectoryBlock d + (nseg - 1) * 2,
             getFirstDirectoryBlock d + (nseg - 1) * 2 + 1]
        ∧ max (segWordsAt d (getFirstDirectoryBlock d) 2) nseg
            = segWordsAt d (getFirstDirectoryBlock d) 2)
      ∨ (tr = [getFirstDirectoryBlock d + (seg - 1) * 2,
               getFirstDirectoryBlock d + (seg - 1) * 2 + 1,
               getFirstDirectoryBlock d + (nseg - 1) * 2,
               getFirstDirectoryBlock d + (nseg - 1) * 2 + 1,
               getFirstDirectoryBlock d, getFirstDirectoryBlock d + 1]
          ∧ max (segWordsAt d (getFirstDirectoryBlock d) 2) nseg
              ≠ segWordsAt d (getFirstDirectoryBlock d) 2) := by
  simp only [splitDirectorySegment] at h
  split at h
  · exact absurd h (by simp)
  · split at h
    · exact absurd h (by simp)
    · split at h
      · exact absurd h (by simp)
      · split at h
        · exact absurd h (by simp)
        · rename_i newSegNum hfind
          split at h
          · exact absurd h (by simp)
          · split at h
            · rename_i hne
              refine ⟨newSegNum, Or.inr ⟨?_, hne⟩⟩
              injection h with h
              injection h with h1 h2
              exact h2.symm
            · rename_i hne
              refine ⟨newSegNum, Or.inl ⟨?_, by simpa using hne⟩⟩
              injection h with h
              injection h with h1 h2
              exact h2.symm

/-- On a successful, non-skipped copy, the write trace ends with the
file's data blocks followed immediately by the two directory-segment
blocks that record the new entry — every data block of the file is
written before the directory blocks referencing it. -/
theorem copy_trace_shape (totalBlocks : Nat) (data : List Nat) (rtname : List Char)
    (noReplace : Bool) (odw sdw : Nat) :
    ∀ (fuel : Nat) (d : Disk) (r : CopyResult),
      copySingleToRt11 totalBlocks data rtname noReplace odw sdw d fuel = r →
      r.err = none → r.skipped = false →
      ∃ t start segB,
        r.writes = t ++ (List.range (blocksNeededFor data)).map (start + ·)
          ++ [segB, segB + 1] := by
  intro fuel
  induction fuel with
  | zero =>
    intro d r hr h1 h2
    rw [← hr] at h1
    simp [copySingleToRt11] at h1
  | succ f ih =>
    intro d r hr h1 h2
    simp only [copySingleToRt11] at hr
    split at hr
    · rw [← hr] at h1; simp at h1
    · split at hr
      · rw [← hr] at h2; simp at h2
      · split at hr
        · rw [← hr] at h1; simp at h1
        · rename_i emptyEntry hfind
          split at hr
          · rw [← hr] at h1; simp at h1
          · split at hr
            · rw [← hr] at h1; simp at h1
            · split at hr
              · split at hr
                · rw [← hr] at h1; simp at h1
                · rename_i ds hsplit
                  rw [← hr] at h1 h2 ⊢
                  simp only at h1 h2 ⊢
                  obtain ⟨t, start, segB, hw⟩ := ih ds.1 _ rfl h1 h2
                  refine ⟨((List.range (blocksNeededFor data)).map (emptyEntry.startBlock + ·))
                    ++ ds.2 ++ t, start, segB, ?_⟩
                  rw [hw]
                  simp [List.append_assoc]
              · rw [← hr] at h1 h2 ⊢
                refine ⟨[], emptyEntry.startBlock,
                  getFirstDirectoryBlock (writeDataBlocks d emptyEntry.startBlock data
                    (blocksNeededFor data)) + (emptyEntry.segNumber - 1) * 2, ?_⟩
                simp

/-- Claim C5: commit ordering.  First part: a successful split writes, in
order, the modified old segment's two blocks, then the new segment's two
blocks, then — exactly when `highestInUse` increases — segment 1's two
blocks.  Second part: a successful copy-to writes every data block of the
file before the two directory-segment blocks recording its new entry
(the trace ends `... ++ dataBlocks ++ [segBlock, segBlock+1]`). -/
theorem C5_write_ordering :
    (∀ (d : Disk) (seg : Nat) (d2 : Disk) (tr : List Nat),
      splitDirectorySegment d seg = .ok (d2, tr) →
      ∃ nseg,
        (tr = [getFirstDirectoryBlock d + (seg - 1) * 2,
               getFirstDirectoryBlock d + (seg - 1) * 2 + 1,
               getFirstDirectoryBlock d + (nseg - 1) * 2,
               getFirstDirectoryBlock d + (nseg - 1) * 2 + 1]
          ∧ max (segWordsAt d (getFirstDirectoryBlock d) 2) nseg
              = segWordsAt d (getFirstDirectoryBlock d) 2)
        ∨ (tr = [getFirstDirectoryBlock d + (seg - 1) * 2,
                 getFirstDirectoryBlock d + (seg - 1) * 2 + 1,
                 getFirstDirectoryBlock d + (nseg - 1) * 2,
                 getFirstDirectoryBlock d + (nseg - 1) * 2 + 1,
                 getFirstDirectoryBlock d, getFirstDirectoryBlock d + 1]
            ∧ max (segWordsAt d (getFirstDirectoryBlock d) 2) nseg
                ≠ segWordsAt d (getFirstDirectoryBlock d) 2))
    ∧ (∀ (totalBlocks : Nat) (data : List Nat) (rtname : List Char)
        (noReplace : Bool) (odw sdw fuel : Nat) (d : Disk) (r : CopyResult),
        copySingleToRt11 totalBlocks data rtname noReplace odw sdw d fuel = r →
        r.err = none → r.skipped = false →
        ∃ t start segB,
          r.writes = t ++ (List.range (blocksNeededFor data)).map (start + ·)
            ++ [segB, segB + 1]) :=
  ⟨split_trace_shape,
   fun totalBlocks data rtname noReplace odw sdw fuel d r =>
     copy_trace_shape totalBlocks data rtname noReplace odw sdw fuel d r⟩

/-- Witness for claim C5: the concrete split of `exDisk3` (which updates
`highestInUse`, so segment 1's blocks are written last) and the concrete
successful copy onto `exDiskOk`. -/
theorem C5_write_ordering_witness :
    (∃ nseg,
      (exSplit3Trace = [getFirstDirectoryBlock exDisk3 + (1 - 1) * 2,
             getFirstDirectoryBlock exDisk3 + (1 - 1) * 2 + 1,
             getFirstDirectoryBlock exDisk3 + (nseg - 1) * 2,
             getFirstDirectoryBlock exDisk3 + (nseg - 1) * 2 + 1]
        ∧ max (segWordsAt exDisk3 (getFirstDirectoryBlock exDisk3) 2) nseg
            = segWordsAt exDisk3 (getFirstDirectoryBlock exDisk3) 2)
      ∨ (exSplit3Trace = [getFirstDirectoryBlock exDisk3 + (1 - 1) * 2,
               getFirstDirectoryBlock exDisk3 + (1 - 1) * 2 + 1,
               getFirstDirectoryBlock exDisk3 + (nseg - 1) * 2,
               getFirstDirectoryBlock exDisk3 + (nseg - 1) * 2 + 1,
               getFirstDirectoryBlock exDisk3, getFirstDirectoryBlock exDisk3 + 1]
          ∧ max (segWordsAt exDisk3 (getFirstDirectoryBlock exDisk3) 2) nseg
              ≠ segWordsAt exDisk3 (getFirstDirectoryBlock exDisk3) 2))
    ∧ (∃ t start segB,
        (copySingleToRt11 40 [7] ['A'] false 0 0 exDiskOk 1).writes
          = t ++ (List.range (blocksNeededFor [7])).map (start + ·) ++ [segB, segB + 1]) :=
  ⟨C5_write_ordering.1 exDisk3 1 exSplit3Disk exSplit3Trace rfl,
   C5_write_ordering.2 40 [7] ['A'] false 0 0 1 exDiskOk
     (copySingleToRt11 40 [7] ['A'] false 0 0 exDiskOk 1) rfl (by decide) (by decide)⟩

end Rt11

namespace Rt11

/-! ## Claim C6: abort behaviour of failed copies -/

/-- A one-segment volume (`totalSegments = 1`, so no split can ever find
a free segment slot) whose segment is almost full: 70 permanent
zero-length entries followed by one empty entry of length 5 at word
index 495 — the insertion pre-check `495 + 21 > 512` forces a split. -/
def exDisk6 : Disk := fun i =>
  if i < 1536 then 0
  else if i < 2048 then
    let j := i - 1536
    if j = 0 then 1 else if j = 2 then 1 else if j = 4 then 20
    else if j < 5 then 0
    else if j < 495 then (if (j - 5) % 7 = 0 then 1024 else 0)
    else if j = 495 then 512 else if j = 499 then 5
    else if j = 502 then 2048
    else 0
  else 0

/-- The entry list `readDirectory` decodes from `exDisk6`. -/
def exEntries6 : List Rt11Entry :=
  ((readDirectory exDisk6 30).getD ([], false)).1

/-- Claim C6, counterexample: on `exDisk6` the copy-to operation aborts
with `DirectoryFull` before committing any directory block — the write
trace is just data block 20 — but the volume is NOT left unchanged: the
file's data was already written into the chosen empty region (word 0 of
block 20 now holds the file's first word, 1, where the original disk
held 0). -/
theorem C6_abort_counterexample :
    (copySingleToRt11 30 [1] [] false 0 0 exDisk6 2).err
      = some (.splitFailed .dirFull)
    ∧ (copySingleToRt11 30 [1] [] false 0 0 exDisk6 2).writes = [20]
    ∧ (copySingleToRt11 30 [1] [] false 0 0 exDisk6 2).disk 5120 = 1
    ∧ exDisk6 5120 = 0 := by
  decide

theorem copy_splitfail (d : Disk) (totalBlocks : Nat) (data : List Nat) (rtname : List Char)
    (odw sdw fuel : Nat) (entries : List Rt11Entry) (warn : Bool) (e : Rt11Entry)
    (err : SplitErr)
    (hread : readDirectory d totalBlocks = some (entries, warn))
    (hfind : findEmptyEntry entries (blocksNeededFor data) = some e)
    (hrange : ¬(e.startBlock = 0 ∨ totalBlocks ≤ e.startBlock + blocksNeededFor data - 1))
    (hlen : ¬ segWordsAt (writeDataBlocks d e.startBlock data (blocksNeededFor data))
        (getFirstDirectoryBlock (writeDataBlocks d e.startBlock data (blocksNeededFor data))
          + (e.segNumber - 1) * 2) (e.wordIndex + 4) < blocksNeededFor data)
    (hneed : 0 < segWordsAt (writeDataBlocks d e.startBlock data (blocksNeededFor data))
        (getFirstDirectoryBlock (writeDataBlocks d e.startBlock data (blocksNeededFor data))
          + (e.segNumber - 1) * 2) (e.wordIndex + 4) - blocksNeededFor data
      ∧ 512 < ((e.wordIndex + (7 + segWordsAt (writeDataBlocks d e.startBlock data
            (blocksNeededFor data))
            (getFirstDirectoryBlock (writeDataBlocks d e.startBlock data (blocksNeededFor data))
              + (e.segNumber - 1) * 2) 3 / 2)) % 65536
          + (7 + segWordsAt (writeDataBlocks d e.startBlock data (blocksNeededFor data))
            (getFirstDirectoryBlock (writeDataBlocks d e.startBlock data (blocksNeededFor data))
              + (e.segNumber - 1) * 2) 3 / 2)
          + (7 + segWordsAt (writeDataBlocks d e.startBlock data (blocksNeededFor data))
            (getFirstDirectoryBlock (writeDataBlocks d e.startBlock data (blocksNeededFor data))
              + (e.segNumber - 1) * 2) 3 / 2)) % 65536)
    (hsplit : splitDirectorySegment (writeDataBlocks d e.startBlock data (blocksNeededFor data))
        e.segNumber = .error err) :
    copySingleToRt11 totalBlocks data rtname false odw sdw d (fuel + 1)
      = ⟨writeDataBlocks d e.startBlock data (blocksNeededFor data),
         (List.range (blocksNeededFor data)).map (e.startBlock + ·),
         some (.splitFailed err), false⟩ := by
  simp only [copySingleToRt11]
  rw [hread]
  simp only [Bool.false_and, Bool.false_eq_true, if_false]
  rw [hfind]
  simp only []
  rw [if_neg hrange, if_neg hlen, if_pos hneed, hsplit]

/-- Claim C6, amended: when allocation fails (no sufficiently large Empty
entry) the copy-to operation aborts with the no-space error, with no
block writes at all and the volume unchanged; when the segment split it
needs fails (directory full, link loop, segment not in chain, empty
segment), the operation aborts before any directory block is committed —
the write trace holds exactly the file's data blocks — so the directory
is unchanged, but the volume is not: the data blocks of the chosen empty
region have already been overwritten. -/
theorem C6_abort_amended :
    (∀ (d : Disk) (totalBlocks : Nat) (data : List Nat) (rtname : List Char)
      (odw sdw fuel : Nat) (entries : List Rt11Entry) (warn : Bool),
      readDirectory d totalBlocks = some (entries, warn) →
      findEmptyEntry entries (blocksNeededFor data) = none →
      copySingleToRt11 totalBlocks data rtname false odw sdw d (fuel + 1)
        = ⟨d, [], some .noSpace, false⟩)
    ∧ (∀ (d : Disk) (totalBlocks : Nat) (data : List Nat) (rtname : List Char)
        (odw sdw fuel : Nat) (entries : List Rt11Entry) (warn : Bool) (e : Rt11Entry)
        (err : SplitErr),
        readDirectory d totalBlocks = some (entries, warn) →
        findEmptyEntry entries (blocksNeededFor data) = some e →
        ¬(e.startBlock = 0 ∨ totalBlocks ≤ e.startBlock + blocksNeededFor data - 1) →
        ¬ segWordsAt (writeDataBlocks d e.startBlock data (blocksNeededFor data))
            (getFirstDirectoryBlock (writeDataBlocks d e.startBlock data (blocksNeededFor data))
              + (e.segNumber - 1) * 2) (e.wordIndex + 4) < blocksNeededFor data →
        (0 < segWordsAt (writeDataBlocks d e.startBlock data (blocksNeededFor data))
            (getFirstDirectoryBlock (writeDataBlocks d e.startBlock data (blocksNeededFor data))
              + (e.segNumber - 1) * 2) (e.wordIndex + 4) - blocksNeededFor data
          ∧ 512 < ((e.wordIndex + (7 + segWordsAt (writeDataBlocks d e.startBlock data
                (blocksNeededFor data))
                (getFirstDirectoryBlock (writeDataBlocks d e.startBlock data
                  (blocksNeededFor data)) + (e.segNumber - 1) * 2) 3 / 2)) % 65536
              + (7 + segWordsAt (writeDataBlocks d e.startBlock data (blocksNeededFor data))
                (getFirstDirectoryBlock (writeDataBlocks d e.startBlock data
                  (blocksNeededFor data)) + (e.segNumber - 1) * 2) 3 / 2)
              + (7 + segWordsAt (writeDataBlocks d e.startBlock data (blocksNeededFor data))
                (getFirstDirectoryBlock (writeDataBlocks d e.startBlock data
                  (blocksNeededFor data)) + (e.segNumber - 1) * 2) 3 / 2)) % 65536) →
        splitDirectorySegment (writeDataBlocks d e.startBlock data (blocksNeededFor data))
          e.segNumber = .error err →
        copySingleToRt11 totalBlocks data rtname false odw sdw d (fuel + 1)
          = ⟨writeDataBlocks d e.startBlock data (blocksNeededFor data),
             (List.range (blocksNeededFor data)).map (e.startBlock + ·),
             some (.splitFailed err), false⟩) :=
  ⟨copy_noSpace, copy_splitfail⟩

/-- Witness for the amended claim C6: the no-space abort on `exDiskNS`
(volume unchanged, no writes) and the directory-full abort on `exDisk6`
(only the data block written). -/
theorem C6_abort_amended_witness :
    copySingleToRt11 40 [9] [] false 0 0 exDiskNS (0 + 1)
      = ⟨exDiskNS, [], some .noSpace, false⟩
    ∧ copySingleToRt11 30 [1] [] false 0 0 exDisk6 (0 + 1)
      = ⟨writeDataBlocks exDisk6 (exEntries6.getD 70 {}).startBlock [1]
           (blocksNeededFor [1]),
         (List.range (blocksNeededFor [1])).map ((exEntries6.getD 70 {}).startBlock + ·),
         some (.splitFailed .dirFull), false⟩ :=
  ⟨C6_abort_amended.1 exDiskNS 40 [9] [] 0 0 0 exEntriesNS false (by decide) (by decide),
   C6_abort_amended.2 exDisk6 30 [1] [] 0 0 0 exEntries6 false (exEntries6.getD 70 {})
     SplitErr.dirFull (by decide) (by decide) (by decide) (by decide) (by decide) rfl⟩

end Rt11
